import Mathlib

/-!
# A shallow embedding of `mmal.c` (first-fit allocator over mmap'ed arenas)

The C program keeps one process-wide pointer `first_arena`, a singly linked
list of arenas and one ring of block headers threaded through all arenas.

Embedding conventions

* Pointers and `size_t` values are natural numbers below `WORD = 2^64`;
  every C addition, subtraction and multiplication is taken modulo `WORD`.
* `NULL` is address `0`.  `sizeof(Header) = 24` and `sizeof(Arena) = 16`
  (three, respectively two, 8-byte fields on the LP64 target).
* Memory comes in two embeddings of the same functions.  The typed view
  (`Heap`): `Heap.hdrs p` is the `Header` record stored at address `p`,
  `Heap.arenas a` the `Arena` record stored at address `a`.  A field store
  to an address that holds no record yet starts from zero-filled memory
  (fresh anonymous mappings are zero-filled); a load from `NULL` is
  `Err.null_deref`, a load from an address that holds no record is
  `Err.fault`.  A store changes the record at its own address only, so the
  typed view is exact for an execution in which no store lands on bytes of
  another record, and it is used for such executions and for functions
  that only load.  The flat memory (`Mem`, functions with the suffix
  `_mem`) is byte addressed: a store changes the eight bytes it is aimed
  at, whatever records they belong to.  Executions in which records
  overlap are stated over the flat memory; `typed_view_agrees_on_runs`
  checks that both embeddings agree on the runs behind the typed test
  heaps.
* `assert` is active: a failed assertion is `Err.assert_fail`.
* The operating system is an oracle `mmap : Nat → Option Nat` from the
  requested length to the address of the new mapping (`none` is
  `MAP_FAILED`).  `Heap.mapped` records the regions handed out so far.
* Loops carry a fuel argument; running out of fuel is `Err.out_of_fuel`.
* The stray `printf` in `mmalloc` only writes to standard output and is
  not modelled.
-/

namespace Mmal

/-- Modulus of `size_t` and pointer arithmetic. -/
def WORD : Nat := 18446744073709551616

/-- The null pointer. -/
def NULL : Nat := 0

/-- Value of `sizeof(Header)`. -/
def SZ_HEADER : Nat := 24

/-- Value of `sizeof(Arena)`. -/
def SZ_ARENA : Nat := 16

/-- The page granularity `#define PAGE_SIZE (128*1024)`. -/
def PAGE_SIZE : Nat := 128 * 1024

/-- Unsigned 64-bit addition. -/
def wadd (a b : Nat) : Nat := (a + b) % WORD

/-- Unsigned 64-bit subtraction. -/
def wsub (a b : Nat) : Nat := (a + (WORD - b % WORD)) % WORD

/-- Unsigned 64-bit multiplication. -/
def wmul (a b : Nat) : Nat := (a * b) % WORD

/-- Block metadata, `struct header`. -/
structure Header where
  next : Nat
  size : Nat
  asize : Nat
deriving DecidableEq, Repr

/-- Arena metadata, `struct arena`. -/
structure Arena where
  next : Nat
  size : Nat
deriving DecidableEq, Repr

/-- Ways in which a call can fail to return. -/
inductive Err where
  | assert_fail
  | null_deref
  | fault
  | out_of_fuel
deriving DecidableEq, Repr

/-- Process state in the typed view: the global `first_arena`, one record
per address, and the regions the operating system has mapped so far.
Records at different addresses share no bytes here; see `Mem` for the
byte-addressed state. -/
structure Heap where
  first_arena : Nat
  arenas : Nat → Option Arena
  hdrs : Nat → Option Header
  mapped : List (Nat × Nat)

/-- State at program start: `first_arena = NULL`, nothing mapped. -/
def Heap.empty : Heap := ⟨NULL, fun _ => none, fun _ => none, []⟩

/-- Point update of a memory map. -/
def upd {α : Type} (f : Nat → Option α) (a : Nat) (v : α) : Nat → Option α :=
  fun x => if x = a then some v else f x

/-- Load of a header record. -/
def rdHdr (s : Heap) (p : Nat) : Except Err Header :=
  if p = NULL then .error .null_deref
  else match s.hdrs p with
    | some h => .ok h
    | none => .error .fault

/-- Store into fields of the header record at `p` in the typed view; no
other record changes, also not one that overlaps `[p, p + 24)` in memory
(`store64` is the byte-addressed store). -/
def wrHdr (p : Nat) (f : Header → Header) (s : Heap) : Except Err Heap :=
  if p = NULL then .error .null_deref
  else .ok ⟨s.first_arena, s.arenas,
            upd s.hdrs p (f ((s.hdrs p).getD ⟨0, 0, 0⟩)), s.mapped⟩

/-- The store `p->next = v`. -/
def setNext (p v : Nat) (s : Heap) : Except Err Heap :=
  wrHdr p (fun h => ⟨v, h.size, h.asize⟩) s

/-- The store `p->size = v`. -/
def setSize (p v : Nat) (s : Heap) : Except Err Heap :=
  wrHdr p (fun h => ⟨h.next, v, h.asize⟩) s

/-- The store `p->asize = v`. -/
def setAsize (p v : Nat) (s : Heap) : Except Err Heap :=
  wrHdr p (fun h => ⟨h.next, h.size, v⟩) s

/-- Load of an arena record. -/
def rdArena (s : Heap) (a : Nat) : Except Err Arena :=
  if a = NULL then .error .null_deref
  else match s.arenas a with
    | some r => .ok r
    | none => .error .fault

/-- Store into fields of the arena record at `a`. -/
def wrArena (a : Nat) (f : Arena → Arena) (s : Heap) : Except Err Heap :=
  if a = NULL then .error .null_deref
  else .ok ⟨s.first_arena, upd s.arenas a (f ((s.arenas a).getD ⟨0, 0⟩)),
            s.hdrs, s.mapped⟩

/-- The function `allign_page`: `((size - 1) / PAGE_SIZE + 1) * PAGE_SIZE`. -/
def allign_page (size : Nat) : Nat :=
  wmul (wadd (wsub size 1 / PAGE_SIZE) 1) PAGE_SIZE

/-- The function `arena_alloc`: returns the new arena pointer or `NULL`. -/
def arena_alloc (mmap : Nat → Option Nat) (req_size : Nat) (s : Heap) :
    Except Err (Nat × Heap) :=
  if ¬ (req_size > wadd SZ_ARENA SZ_HEADER) then .error .assert_fail
  else
    let req := allign_page req_size
    match mmap req with
    | none => .ok (NULL, s)
    | some arena => do
      let s0 : Heap := ⟨s.first_arena, s.arenas, s.hdrs, (arena, req) :: s.mapped⟩
      let s1 ← wrArena arena (fun r => ⟨NULL, r.size⟩) s0
      let s2 ← wrArena arena (fun r => ⟨r.next, req⟩) s1
      pure (arena, s2)

/-- The loop `while (arena->next) arena = arena->next;` of `arena_append`. -/
def arena_last : Nat → Heap → Nat → Except Err Nat
  | 0, _, _ => .error .out_of_fuel
  | fuel + 1, s, arena => do
    let r ← rdArena s arena
    if r.next ≠ NULL then arena_last fuel s r.next else pure arena

/-- The function `arena_append`. -/
def arena_append (fuel : Nat) (a : Nat) (s : Heap) : Except Err Heap :=
  if s.first_arena = NULL then
    .ok ⟨a, s.arenas, s.hdrs, s.mapped⟩
  else do
    let arena ← arena_last fuel s s.first_arena
    wrArena arena (fun r => ⟨a, r.size⟩) s

/-- The function `hdr_ctor`. -/
def hdr_ctor (hdr size : Nat) (s : Heap) : Except Err Heap :=
  if ¬ (size > 0) then .error .assert_fail
  else do
    let s1 ← setNext hdr NULL s
    let s2 ← setSize hdr size s1
    setAsize hdr 0 s2

/-- The function `hdr_should_split`. -/
def hdr_should_split (hdr size : Nat) (s : Heap) : Except Err Bool := do
  let h ← rdHdr s hdr
  if ¬ (h.asize = 0) then .error .assert_fail
  else if ¬ (size > 0) then .error .assert_fail
  else pure (decide (wsub h.size size ≥ wadd SZ_HEADER 4))

/-- The function `hdr_split`: returns the new right block. -/
def hdr_split (hdr req_size : Nat) (s : Heap) : Except Err (Nat × Heap) := do
  let h ← rdHdr s hdr
  if ¬ (h.size ≥ wadd req_size (wmul 2 SZ_HEADER)) then .error .assert_fail
  else do
    let p := wadd (wadd hdr SZ_HEADER) req_size
    let s1 ← if h.next ≠ NULL then setNext p h.next s else setNext p hdr s
    let s2 ← setNext hdr p s1
    let h2 ← rdHdr s2 hdr
    let s3 ← setSize p (wsub (wsub h2.size req_size) SZ_HEADER) s2
    let s4 ← setAsize p 0 s3
    let s5 ← setSize hdr req_size s4
    pure (p, s5)

/-- The function `hdr_can_merge`; `&&` reads `right` only when `left` is free. -/
def hdr_can_merge (left right : Nat) (s : Heap) : Except Err Bool := do
  let l ← rdHdr s left
  if ¬ (l.next = right) then .error .assert_fail
  else if ¬ (left ≠ right) then .error .assert_fail
  else if l.asize ≠ 0 then pure false
  else do
    let r ← rdHdr s right
    pure (decide (r.asize = 0))

/-- The function `hdr_merge`. -/
def hdr_merge (left right : Nat) (s : Heap) : Except Err Heap := do
  let l ← rdHdr s left
  if ¬ (l.next = right) then .error .assert_fail
  else if ¬ (left ≠ right) then .error .assert_fail
  else do
    let r ← rdHdr s right
    let s1 ← if r.next ≠ left then setNext left r.next s else setNext left NULL s
    let l1 ← rdHdr s1 left
    let r1 ← rdHdr s1 right
    setSize left (wadd (wadd l1.size r1.size) SZ_HEADER) s1

/-- Address of the first block of the first arena,
`(void *) first_arena + sizeof(Arena)`. -/
def first_hdr (s : Heap) : Nat := wadd s.first_arena SZ_ARENA

/-- The loop of `first_fit`, entered with the current block `hdr`. -/
def first_fit_loop (s : Heap) (size first : Nat) : Nat → Nat → Except Err Nat
  | 0, _ => .error .out_of_fuel
  | fuel + 1, hdr => do
    let h ← rdHdr s hdr
    if h.asize ≠ 0 ∨ h.size < size then
      let hdr1 := h.next
      if hdr1 = first ∨ hdr1 = NULL then pure NULL
      else first_fit_loop s size first fuel hdr1
    else pure hdr

/-- The function `first_fit`. -/
def first_fit (fuel : Nat) (size : Nat) (s : Heap) : Except Err Nat :=
  first_fit_loop s size (first_hdr s) fuel (first_hdr s)

/-- The loop `while (tmp->next != hdr) tmp = tmp->next;` of `hdr_get_prev`. -/
def get_prev_loop (s : Heap) (hdr : Nat) : Nat → Nat → Except Err Nat
  | 0, _ => .error .out_of_fuel
  | fuel + 1, tmp => do
    let t ← rdHdr s tmp
    if t.next ≠ hdr then get_prev_loop s hdr fuel t.next else pure tmp

/-- The function `hdr_get_prev`. -/
def hdr_get_prev (fuel : Nat) (hdr : Nat) (s : Heap) : Except Err Nat :=
  if ¬ (s.first_arena ≠ NULL) then .error .assert_fail
  else do
    let h ← rdHdr s hdr
    if h.next = NULL ∨ h.next = hdr then pure NULL
    else get_prev_loop s hdr fuel hdr

/-- Common tail of both branches of `mmalloc`: split if worthwhile, mark the
block allocated, return the payload pointer. -/
def mmalloc_finish (hdr size : Nat) (s : Heap) : Except Err (Nat × Heap) := do
  let b ← hdr_should_split hdr size s
  let s1 ← if b then (hdr_split hdr size s).map Prod.snd else pure s
  let s2 ← setAsize hdr size s1
  pure (wadd hdr SZ_HEADER, s2)

/-- The function `mmalloc`. -/
def mmalloc (fuel : Nat) (mmap : Nat → Option Nat) (size : Nat) (s : Heap) :
    Except Err (Nat × Heap) :=
  if size = 0 then .ok (NULL, s)
  else if s.first_arena = NULL then do
    let (a, s1) ← arena_alloc mmap (wadd (wadd size SZ_ARENA) SZ_HEADER) s
    if a = NULL then pure (NULL, s1)
    else do
      let s2 ← arena_append fuel a s1
      let hdr := wadd a SZ_ARENA
      let r ← rdArena s2 a
      let s3 ← hdr_ctor hdr (wsub (wsub r.size SZ_ARENA) SZ_HEADER) s2
      let hdr ← first_fit fuel size s3
      mmalloc_finish hdr size s3
  else do
    let hdr ← first_fit fuel size s
    if hdr = NULL then do
      let (a, s1) ← arena_alloc mmap (wadd (wadd size SZ_ARENA) SZ_HEADER) s
      if a = NULL then pure (NULL, s1)
      else do
        let s2 ← arena_append fuel a s1
        let hdr2 := wadd a SZ_ARENA
        let r ← rdArena s2 a
        let s3 ← hdr_ctor hdr2 (wsub (wsub r.size SZ_ARENA) SZ_HEADER) s2
        let first := first_hdr s3
        let f ← rdHdr s3 first
        let last ← if f.next ≠ NULL then hdr_get_prev fuel first s3 else pure first
        let s4 ← setNext last hdr2 s3
        let s5 ← setNext hdr2 first s4
        let hdr ← first_fit fuel size s5
        mmalloc_finish hdr size s5
    else mmalloc_finish hdr size s

/-- The function `mfree`. -/
def mfree (fuel : Nat) (ptr : Nat) (s : Heap) : Except Err Heap :=
  if ¬ (ptr ≠ NULL) then .error .assert_fail
  else do
    let hdr := wsub ptr SZ_HEADER
    let prev ← hdr_get_prev fuel hdr s
    let first := first_hdr s
    let s1 ← setAsize hdr 0 s
    let h ← rdHdr s1 hdr
    let b ← hdr_can_merge hdr h.next s1
    let s2 ← if b then hdr_merge hdr h.next s1 else pure s1
    if hdr ≠ first then do
      let b2 ← hdr_can_merge prev hdr s2
      if b2 then hdr_merge prev hdr s2 else pure s2
    else pure s2

/-- The function `mrealloc`: both paths return `NULL` and touch nothing. -/
def mrealloc (_ptr : Nat) (size : Nat) (s : Heap) : Nat × Heap :=
  if size = 0 then (NULL, s)
  else (NULL, s)

/-! ## The operating system and reachable states -/

/-- A mapping of `len` bytes at address `a` that a real `mmap` can hand out
in state `s`: non-null, non-empty, inside the address space and disjoint
from every region mapped before. -/
def Fresh (s : Heap) (a len : Nat) : Prop :=
  a ≠ NULL ∧ 0 < len ∧ a + len < WORD ∧
    ∀ r ∈ s.mapped, a + len ≤ r.1 ∨ r.1 + r.2 ≤ a

instance (s : Heap) (a len : Nat) : Decidable (Fresh s a len) :=
  inferInstanceAs (Decidable (_ ∧ _ ∧ _ ∧ _))

/-- An operating system that places the next mapping at `a` whenever that
placement is possible and denies the request otherwise. -/
def grantAt (s : Heap) (a : Nat) : Nat → Option Nat :=
  fun len => if Fresh s a len then some a else none

/-- An operating system that denies every request. -/
def denyAll : Nat → Option Nat := fun _ => none

/-- Heap states reachable from program start by `mmalloc` and `mfree` calls
that return, together with the pointers handed out and not yet freed.
`mfree` is only called on such a pointer, and every mapping the operating
system grants is fresh. -/
inductive Reachable : Heap → List Nat → Prop where
  | start : Reachable Heap.empty []
  | malloc {s : Heap} {live : List Nat} (fuel : Nat) (mmap : Nat → Option Nat)
      (size p : Nat) (s1 : Heap) :
      Reachable s live → size < WORD →
      (∀ len a, mmap len = some a → Fresh s a len) →
      mmalloc fuel mmap size s = .ok (p, s1) →
      Reachable s1 (if p = NULL then live else p :: live)
  | free {s : Heap} {live : List Nat} (fuel : Nat) (p : Nat) (s1 : Heap) :
      Reachable s live → p ∈ live →
      mfree fuel p s = .ok s1 →
      Reachable s1 (live.erase p)

/-- Heap left by a call, `Heap.empty` if the call did not return. -/
def heapOf : Except Err (Nat × Heap) → Heap
  | .ok (_, s) => s
  | .error _ => Heap.empty

/-- Heap left by an `mfree` call, `Heap.empty` if the call did not return. -/
def heapOfFree : Except Err Heap → Heap
  | .ok s => s
  | .error _ => Heap.empty

/-- Pointer returned by a call, if it returned. -/
def ptrOf : Except Err (Nat × Heap) → Except Err Nat
  | .ok (p, _) => .ok p
  | .error e => .error e

/-! ## Predicates used by the statements -/

/-- Block `b` can serve a request of `size` bytes: it is free and large enough
(the negation of the loop condition of `first_fit`). -/
def Fits (s : Heap) (size b : Nat) : Prop :=
  match s.hdrs b with
  | some h => h.asize = 0 ∧ size ≤ h.size
  | none => False

instance (s : Heap) (size b : Nat) : Decidable (Fits s size b) := by
  unfold Fits
  cases s.hdrs b with
  | none => exact instDecidableFalse
  | some h => exact instDecidableAnd

/-- The relation `b->next == c`. -/
def NextIs (s : Heap) (b c : Nat) : Prop :=
  ∃ h, s.hdrs b = some h ∧ h.next = c

/-- The list `bs` enumerates a well-formed block ring of `s`: it starts at
the first block of the first arena, follows `next` links through distinct
non-null blocks, and the last block links back to the first one, or the
ring is a lone block whose `next` is `NULL`. -/
structure Ring (s : Heap) (bs : List Nat) : Prop where
  head : bs.head? = some (first_hdr s)
  nodup : bs.Nodup
  nonnull : ∀ b ∈ bs, b ≠ NULL
  link : bs.Chain' (NextIs s)
  close : ∃ l h, bs.getLast? = some l ∧ s.hdrs l = some h ∧
    (h.next = first_hdr s ∨ (bs = [first_hdr s] ∧ h.next = NULL))

/-- Successive blocks of a walk that starts in the ring and ends at a block
whose `next` is `first` or `NULL`. -/
def Walk (s : Heap) (first : Nat) : List Nat → Prop
  | [] => False
  | [b] => b ≠ NULL ∧ ∃ h, s.hdrs b = some h ∧ (h.next = first ∨ h.next = NULL)
  | b :: c :: l => b ≠ NULL ∧ NextIs s b c ∧ c ≠ first ∧ Walk s first (c :: l)

/-- First block of `bs` that fits, `NULL` if there is none. -/
def firstFitting (s : Heap) (size : Nat) (bs : List Nat) : Nat :=
  (bs.find? (fun b => decide (Fits s size b))).getD NULL

/-- Every two distinct live allocations `p`, `q` (payload pointers whose
blocks have `asize > 0`) are apart: the payload range of one meets neither
the header nor the payload range of the other. -/
def LiveDisjoint (s : Heap) (live : List Nat) : Prop :=
  ∀ p ∈ live, ∀ q ∈ live, p ≠ q →
    ∀ hp hq, s.hdrs (wsub p SZ_HEADER) = some hp →
      s.hdrs (wsub q SZ_HEADER) = some hq → 0 < hp.asize → 0 < hq.asize →
      p + hp.size ≤ wsub q SZ_HEADER ∨ q + hq.size ≤ wsub p SZ_HEADER

/-- The arena records along `next` links, ending at a record with
`next == NULL`. -/
def ArenaChain (s : Heap) : List Nat → Prop
  | [] => False
  | [a] => a ≠ NULL ∧ ∃ r, s.arenas a = some r ∧ r.next = NULL
  | a :: b :: l => a ≠ NULL ∧ (∃ r, s.arenas a = some r ∧ r.next = b) ∧
      b ≠ NULL ∧ ArenaChain s (b :: l)

/-- A heap whose arena list and block ring are well formed: `as` lists the
distinct arenas from `first_arena` on, each at the start of a mapped region;
`bs` is the block ring, a lone block having `next == NULL`; every block
header of the ring lies inside a mapped region. -/
structure WellFormed (s : Heap) (as bs : List Nat) : Prop where
  arena_head : as.head? = some s.first_arena
  arena_chain : ArenaChain s as
  arena_nodup : as.Nodup
  arena_mapped : ∀ x ∈ as, ∃ r ∈ s.mapped, r.1 = x ∧ 0 < r.2
  ring : Ring s bs
  lone_null : ∀ h, s.hdrs (first_hdr s) = some h → h.next ≠ first_hdr s
  hdr_mapped : ∀ b ∈ bs, ∃ r ∈ s.mapped, r.1 ≤ b ∧ b + SZ_HEADER ≤ r.1 + r.2

/-- Heap in the growth path of `mmalloc` right before its second `first_fit`:
the arena `a` of `len` bytes is appended behind arena `lastA`, and its block
`a + 16`, free with the whole payload as capacity, is linked behind block
`last` with `next` back to the anchor. -/
def spliceHeap (s : Heap) (a len lastA last : Nat) : Heap :=
  ⟨s.first_arena,
    upd (upd s.arenas a ⟨NULL, len⟩) lastA ⟨a, ((s.arenas lastA).getD ⟨0, 0⟩).size⟩,
    upd (upd (upd s.hdrs (a + 16) ⟨NULL, len - 40, 0⟩) last
      ⟨a + 16, ((s.hdrs last).getD ⟨0, 0, 0⟩).size, ((s.hdrs last).getD ⟨0, 0, 0⟩).asize⟩)
      (a + 16) ⟨first_hdr s, len - 40, 0⟩,
    (a, len) :: s.mapped⟩

/-! ## Concrete heaps used as test inputs -/

/-- One arena at 262144 whose single block (header at 262160) is allocated
whole: the state after `mmalloc(131032)` at program start. -/
def soleHeap : Heap :=
  heapOf (mmalloc 1 (grantAt Heap.empty 262144) 131032 Heap.empty)

/-- One arena at 262144 after `mmalloc(100)`. -/
def sibHeap1 : Heap :=
  heapOf (mmalloc 4 (grantAt Heap.empty 262144) 100 Heap.empty)

/-- One arena at 262144 after `mmalloc(100)` and `mmalloc(130908)`: the ring
consists of the two siblings of one split, both allocated. -/
def sibHeap : Heap := heapOf (mmalloc 4 denyAll 130908 sibHeap1)

/-- After `soleHeap`, `mmalloc(100)` with the second arena mapped at 131072,
directly below the first one. -/
def ovB : Heap := heapOf (mmalloc 4 (grantAt soleHeap 131072) 100 soleHeap)

/-- Then `mmalloc(130908)`, which takes the rest of the second arena. -/
def ovC : Heap := heapOf (mmalloc 4 denyAll 130908 ovB)

/-- Then `mfree` of the first allocation (block at 262160). -/
def ovD : Heap := heapOfFree (mfree 4 262184 ovC)

/-- Then `mfree` of the third allocation (block at 131212). -/
def ovE : Heap := heapOfFree (mfree 4 131236 ovD)

/-- Then `mmalloc(131032)`, served by the block at 262160. -/
def ovF : Heap := heapOf (mmalloc 4 denyAll 131032 ovE)

/-- Then `mmalloc(261964)`, served by the block at 131212. -/
def ovG : Heap := heapOf (mmalloc 4 denyAll 261964 ovF)

/-- A ring of three free blocks of capacities 50, 10 and 200, laid out back
to back after the arena record at 4096. -/
def ring3 : Heap :=
  ⟨4096, upd (fun _ => none) 4096 ⟨NULL, 131072⟩,
    upd (upd (upd (fun _ => none) 4112 ⟨4186, 50, 0⟩) 4186 ⟨4220, 10, 0⟩)
      4220 ⟨4112, 200, 0⟩,
    [(4096, 131072)]⟩

/-- Every block of `bs` lies, header and capacity, inside the payload of a
mapped arena. -/
def BlocksWithinArenas (s : Heap) (bs : List Nat) : Prop :=
  ∀ b ∈ bs, ∀ h, s.hdrs b = some h →
    ∃ r ∈ s.mapped, r.1 + SZ_ARENA ≤ b ∧ b + SZ_HEADER + h.size ≤ r.1 + r.2

/-- Sum of `sizeof(Header) + size` over the blocks `bs`. -/
def payloadSum (s : Heap) (bs : List Nat) : Nat :=
  (bs.map (fun b => match s.hdrs b with
    | some h => SZ_HEADER + h.size
    | none => 0)).sum

/-- One arena at 262144 after `mmalloc(100)` twice: blocks at 262160 and
262284 allocated, the rest free at 262408. -/
def triB : Heap := heapOf (mmalloc 4 denyAll 100 sibHeap1)

/-- Then `mmalloc(130784)`, which takes the rest: three allocated blocks. -/
def triC : Heap := heapOf (mmalloc 4 denyAll 130784 triB)

/-- Then `mfree` of the first block (header 262160). -/
def triD : Heap := heapOfFree (mfree 4 262184 triC)

/-- Then `mfree` of the third block (header 262408). -/
def triE : Heap := heapOfFree (mfree 4 262432 triD)

/-- After `triC`, `mfree` of the third block (header 262408) first. -/
def triD2 : Heap := heapOfFree (mfree 4 262432 triC)

/-- Then `mfree` of the first block (header 262160). -/
def triF : Heap := heapOfFree (mfree 4 262184 triD2)

/-- After `sibHeap`, `mfree` of the left sibling. -/
def sibFreedL : Heap := heapOfFree (mfree 4 262184 sibHeap)

/-- Then `mfree` of the right sibling. -/
def sibFreed : Heap := heapOfFree (mfree 4 262308 sibFreedL)

/-! ## Flat memory

The typed view above keeps one record per address, so it is exact only as
long as no store lands on bytes that belong to another record.  The
definitions below embed the same functions over byte-addressed memory:
every field access is an 8-byte little-endian load or store at
`base + offset`, with `next` at offset 0, `size` at offset 8 and `asize` at
offset 16 of a `Header`, and `next` at offset 0 and `size` at offset 8 of an
`Arena`.  An access outside the regions obtained from `mmap` is `Err.fault`. -/

/-- Process state over flat memory: the global `first_arena`, the byte stored
at every address and the regions the operating system has mapped so far. -/
structure Mem where
  first_arena : Nat
  byte : Nat → Nat
  mapped : List (Nat × Nat)

/-- Flat state at program start: `first_arena = NULL`, nothing mapped. -/
def Mem.blank : Mem := ⟨NULL, fun _ => 0, []⟩

/-- Each of the `n` bytes from address `p` on lies inside a mapped region. -/
def inMapped (s : Mem) (p n : Nat) : Bool :=
  (List.range n).all (fun i =>
    s.mapped.any (fun r => decide (r.1 ≤ p + i ∧ p + i < r.1 + r.2)))

/-- Little-endian value of the eight bytes from address `p` on. -/
def le64 (m : Nat → Nat) (p : Nat) : Nat :=
  m p + 256 * (m (p + 1) + 256 * (m (p + 2) + 256 * (m (p + 3) + 256 * (m (p + 4)
    + 256 * (m (p + 5) + 256 * (m (p + 6) + 256 * m (p + 7)))))))

/-- Memory after the eight bytes of `v` are stored from address `p` on. -/
def put64 (m : Nat → Nat) (p v : Nat) : Nat → Nat :=
  fun a => if p ≤ a ∧ a < p + 8 then v / 256 ^ (a - p) % 256 else m a

/-- Load of the 8-byte field at offset `off` of the record at `base`. -/
def load64 (s : Mem) (base off : Nat) : Except Err Nat :=
  if base = NULL then .error .null_deref
  else if inMapped s (wadd base off) 8 then .ok (le64 s.byte (wadd base off))
  else .error .fault

/-- Store into the 8-byte field at offset `off` of the record at `base`. -/
def store64 (base off v : Nat) (s : Mem) : Except Err Mem :=
  if base = NULL then .error .null_deref
  else if inMapped s (wadd base off) 8 then
    .ok ⟨s.first_arena, put64 s.byte (wadd base off) v, s.mapped⟩
  else .error .fault

/-- The header record whose three fields are stored from address `p` on. -/
def hdrAt (s : Mem) (p : Nat) : Header :=
  ⟨le64 s.byte p, le64 s.byte (p + 8), le64 s.byte (p + 16)⟩

/-- The arena record whose two fields are stored from address `a` on. -/
def arenaAt (s : Mem) (a : Nat) : Arena :=
  ⟨le64 s.byte a, le64 s.byte (a + 8)⟩

/-- The function `arena_alloc` over flat memory; a new anonymous mapping is
zero-filled. -/
def arena_alloc_mem (mmap : Nat → Option Nat) (req_size : Nat) (s : Mem) :
    Except Err (Nat × Mem) :=
  if ¬ (req_size > wadd SZ_ARENA SZ_HEADER) then .error .assert_fail
  else
    let req := allign_page req_size
    match mmap req with
    | none => .ok (NULL, s)
    | some arena => do
      let s0 : Mem := ⟨s.first_arena,
        fun a => if arena ≤ a ∧ a < arena + req then 0 else s.byte a,
        (arena, req) :: s.mapped⟩
      let s1 ← store64 arena 0 NULL s0
      let s2 ← store64 arena 8 req s1
      pure (arena, s2)

/-- The loop `while (arena->next) arena = arena->next;` over flat memory. -/
def arena_last_mem : Nat → Mem → Nat → Except Err Nat
  | 0, _, _ => .error .out_of_fuel
  | fuel + 1, s, arena => do
    let n ← load64 s arena 0
    if n ≠ NULL then arena_last_mem fuel s n else pure arena

/-- The function `arena_append` over flat memory. -/
def arena_append_mem (fuel : Nat) (a : Nat) (s : Mem) : Except Err Mem :=
  if s.first_arena = NULL then
    .ok ⟨a, s.byte, s.mapped⟩
  else do
    let arena ← arena_last_mem fuel s s.first_arena
    store64 arena 0 a s

/-- The function `hdr_ctor` over flat memory. -/
def hdr_ctor_mem (hdr size : Nat) (s : Mem) : Except Err Mem :=
  if ¬ (size > 0) then .error .assert_fail
  else do
    let s1 ← store64 hdr 0 NULL s
    let s2 ← store64 hdr 8 size s1
    store64 hdr 16 0 s2

/-- The function `hdr_should_split` over flat memory. -/
def hdr_should_split_mem (hdr size : Nat) (s : Mem) : Except Err Bool := do
  let a ← load64 s hdr 16
  if ¬ (a = 0) then .error .assert_fail
  else if ¬ (size > 0) then .error .assert_fail
  else do
    let c ← load64 s hdr 8
    pure (decide (wsub c size ≥ wadd SZ_HEADER 4))

/-- The function `hdr_split` over flat memory, its loads and stores in
program order: `hdr->size` is loaded again after the stores to `p->next` and
`hdr->next`. -/
def hdr_split_mem (hdr req_size : Nat) (s : Mem) : Except Err (Nat × Mem) := do
  let c ← load64 s hdr 8
  if ¬ (c ≥ wadd req_size (wmul 2 SZ_HEADER)) then .error .assert_fail
  else do
    let p := wadd (wadd hdr SZ_HEADER) req_size
    let n ← load64 s hdr 0
    let s1 ← if n ≠ NULL then store64 p 0 n s else store64 p 0 hdr s
    let s2 ← store64 hdr 0 p s1
    let c2 ← load64 s2 hdr 8
    let s3 ← store64 p 8 (wsub (wsub c2 req_size) SZ_HEADER) s2
    let s4 ← store64 p 16 0 s3
    let s5 ← store64 hdr 8 req_size s4
    pure (p, s5)

/-- The function `hdr_can_merge` over flat memory; `&&` reads `right` only
when `left` is free. -/
def hdr_can_merge_mem (left right : Nat) (s : Mem) : Except Err Bool := do
  let n ← load64 s left 0
  if ¬ (n = right) then .error .assert_fail
  else if ¬ (left ≠ right) then .error .assert_fail
  else do
    let la ← load64 s left 16
    if la ≠ 0 then pure false
    else do
      let ra ← load64 s right 16
      pure (decide (ra = 0))

/-- The function `hdr_merge` over flat memory, its loads and stores in
program order. -/
def hdr_merge_mem (left right : Nat) (s : Mem) : Except Err Mem := do
  let n ← load64 s left 0
  if ¬ (n = right) then .error .assert_fail
  else if ¬ (left ≠ right) then .error .assert_fail
  else do
    let rn ← load64 s right 0
    let s1 ← if rn ≠ left then store64 left 0 rn s else store64 left 0 NULL s
    let lc ← load64 s1 left 8
    let rc ← load64 s1 right 8
    store64 left 8 (wadd (wadd lc rc) SZ_HEADER) s1

/-- Address of the first block of the first arena in a flat state. -/
def first_hdr_mem (s : Mem) : Nat := wadd s.first_arena SZ_ARENA

/-- The loop of `first_fit` over flat memory; `||` reads `hdr->size` only
when `hdr->asize` is zero. -/
def first_fit_loop_mem (s : Mem) (size first : Nat) : Nat → Nat → Except Err Nat
  | 0, _ => .error .out_of_fuel
  | fuel + 1, hdr => do
    let a ← load64 s hdr 16
    let busy ← if a ≠ 0 then pure true
      else (load64 s hdr 8).map (fun c => decide (c < size))
    if busy then do
      let hdr1 ← load64 s hdr 0
      if hdr1 = first ∨ hdr1 = NULL then pure NULL
      else first_fit_loop_mem s size first fuel hdr1
    else pure hdr

/-- The function `first_fit` over flat memory. -/
def first_fit_mem (fuel : Nat) (size : Nat) (s : Mem) : Except Err Nat :=
  first_fit_loop_mem s size (first_hdr_mem s) fuel (first_hdr_mem s)

/-- The loop `while (tmp->next != hdr) tmp = tmp->next;` over flat memory. -/
def get_prev_loop_mem (s : Mem) (hdr : Nat) : Nat → Nat → Except Err Nat
  | 0, _ => .error .out_of_fuel
  | fuel + 1, tmp => do
    let n ← load64 s tmp 0
    if n ≠ hdr then get_prev_loop_mem s hdr fuel n else pure tmp

/-- The function `hdr_get_prev` over flat memory. -/
def hdr_get_prev_mem (fuel : Nat) (hdr : Nat) (s : Mem) : Except Err Nat :=
  if ¬ (s.first_arena ≠ NULL) then .error .assert_fail
  else do
    let n ← load64 s hdr 0
    if n = NULL ∨ n = hdr then pure NULL
    else get_prev_loop_mem s hdr fuel hdr

/-- Common tail of both branches of `mmalloc` over flat memory. -/
def mmalloc_finish_mem (hdr size : Nat) (s : Mem) : Except Err (Nat × Mem) := do
  let b ← hdr_should_split_mem hdr size s
  let s1 ← if b then (hdr_split_mem hdr size s).map Prod.snd else pure s
  let s2 ← store64 hdr 16 size s1
  pure (wadd hdr SZ_HEADER, s2)

/-- The function `mmalloc` over flat memory. -/
def mmalloc_mem (fuel : Nat) (mmap : Nat → Option Nat) (size : Nat) (s : Mem) :
    Except Err (Nat × Mem) :=
  if size = 0 then .ok (NULL, s)
  else if s.first_arena = NULL then do
    let (a, s1) ← arena_alloc_mem mmap (wadd (wadd size SZ_ARENA) SZ_HEADER) s
    if a = NULL then pure (NULL, s1)
    else do
      let s2 ← arena_append_mem fuel a s1
      let hdr := wadd a SZ_ARENA
      let len ← load64 s2 a 8
      let s3 ← hdr_ctor_mem hdr (wsub (wsub len SZ_ARENA) SZ_HEADER) s2
      let hdr ← first_fit_mem fuel size s3
      mmalloc_finish_mem hdr size s3
  else do
    let hdr ← first_fit_mem fuel size s
    if hdr = NULL then do
      let (a, s1) ← arena_alloc_mem mmap (wadd (wadd size SZ_ARENA) SZ_HEADER) s
      if a = NULL then pure (NULL, s1)
      else do
        let s2 ← arena_append_mem fuel a s1
        let hdr2 := wadd a SZ_ARENA
        let len ← load64 s2 a 8
        let s3 ← hdr_ctor_mem hdr2 (wsub (wsub len SZ_ARENA) SZ_HEADER) s2
        let first := first_hdr_mem s3
        let fn ← load64 s3 first 0
        let last ← if fn ≠ NULL then hdr_get_prev_mem fuel first s3 else pure first
        let s4 ← store64 last 0 hdr2 s3
        let s5 ← store64 hdr2 0 first s4
        let hdr ← first_fit_mem fuel size s5
        mmalloc_finish_mem hdr size s5
    else mmalloc_finish_mem hdr size s

/-- The function `mfree` over flat memory. -/
def mfree_mem (fuel : Nat) (ptr : Nat) (s : Mem) : Except Err Mem :=
  if ¬ (ptr ≠ NULL) then .error .assert_fail
  else do
    let hdr := wsub ptr SZ_HEADER
    let prev ← hdr_get_prev_mem fuel hdr s
    let first := first_hdr_mem s
    let s1 ← store64 hdr 16 0 s
    let n ← load64 s1 hdr 0
    let b ← hdr_can_merge_mem hdr n s1
    let s2 ← if b then (load64 s1 hdr 0 >>= fun n2 => hdr_merge_mem hdr n2 s1)
      else pure s1
    if hdr ≠ first then do
      let b2 ← hdr_can_merge_mem prev hdr s2
      if b2 then hdr_merge_mem prev hdr s2 else pure s2
    else pure s2

/-- A mapping of `len` bytes at address `a` that a real `mmap` can hand out
in the flat state `s`. -/
def FreshMem (s : Mem) (a len : Nat) : Prop :=
  a ≠ NULL ∧ 0 < len ∧ a + len < WORD ∧
    ∀ r ∈ s.mapped, a + len ≤ r.1 ∨ r.1 + r.2 ≤ a

instance (s : Mem) (a len : Nat) : Decidable (FreshMem s a len) :=
  inferInstanceAs (Decidable (_ ∧ _ ∧ _ ∧ _))

/-- An operating system that places the next mapping at `a` whenever that
placement is possible in the flat state `s` and denies the request otherwise. -/
def grantAtMem (s : Mem) (a : Nat) : Nat → Option Nat :=
  fun len => if FreshMem s a len then some a else none

/-- Flat states reachable from program start by `mmalloc` and `mfree` calls
that return, together with the pointers handed out and not yet freed. -/
inductive ReachableMem : Mem → List Nat → Prop where
  | start : ReachableMem Mem.blank []
  | malloc {s : Mem} {live : List Nat} (fuel : Nat) (mmap : Nat → Option Nat)
      (size p : Nat) (s1 : Mem) :
      ReachableMem s live → size < WORD →
      (∀ len a, mmap len = some a → FreshMem s a len) →
      mmalloc_mem fuel mmap size s = .ok (p, s1) →
      ReachableMem s1 (if p = NULL then live else p :: live)
  | free {s : Mem} {live : List Nat} (fuel : Nat) (p : Nat) (s1 : Mem) :
      ReachableMem s live → p ∈ live →
      mfree_mem fuel p s = .ok s1 →
      ReachableMem s1 (live.erase p)

/-- Flat state left by a call, `Mem.blank` if the call did not return. -/
def memOf : Except Err (Nat × Mem) → Mem
  | .ok (_, s) => s
  | .error _ => Mem.blank

/-- Flat state left by a call without result, `Mem.blank` if it did not
return. -/
def memOfFree : Except Err Mem → Mem
  | .ok s => s
  | .error _ => Mem.blank

/-- Pointer returned by a call over flat memory, if it returned. -/
def ptrOfMem : Except Err (Nat × Mem) → Except Err Nat
  | .ok (p, _) => .ok p
  | .error e => .error e

/-- Whether a call returned. -/
def returned {α : Type} : Except Err α → Bool
  | .ok _ => true
  | .error _ => false

/-! ## Runs over flat memory used as test inputs -/

/-- Flat state after `mmalloc(131032)` at program start, the arena mapped at
262144 (the run that gives `soleHeap`). -/
def mSole : Mem :=
  memOf (mmalloc_mem 1 (grantAtMem Mem.blank 262144) 131032 Mem.blank)

/-- Then `mmalloc(100)` with the second arena mapped at 131072, directly
below the first one. -/
def mOvB : Mem := memOf (mmalloc_mem 4 (grantAtMem mSole 131072) 100 mSole)

/-- Then `mmalloc(130908)`, which takes the rest of the second arena. -/
def mOvC : Mem := memOf (mmalloc_mem 4 denyAll 130908 mOvB)

/-- Then `mfree` of the first allocation (block at 262160). -/
def mOvD : Mem := memOfFree (mfree_mem 4 262184 mOvC)

/-- Then `mfree` of the third allocation (block at 131212). -/
def mOvE : Mem := memOfFree (mfree_mem 4 131236 mOvD)

/-- Then `mmalloc(131032)`, served by the block at 262160. -/
def mOvF : Mem := memOf (mmalloc_mem 4 denyAll 131032 mOvE)

/-- Then `mmalloc(261964)`, served by the block at 131212 (the run that
gives `ovG`). -/
def mOvG : Mem := memOf (mmalloc_mem 4 denyAll 261964 mOvF)

/-- After `mOvF`, the call `hdr_split(131212, 130916)` that `mmalloc(130916)`
makes. -/
def mCut : Mem := memOf (hdr_split_mem 131212 130916 mOvF)

/-- After `mOvF`, `mmalloc(130916)`, served by the block at 131212, which is
split at 262152. -/
def mSplit : Mem := memOf (mmalloc_mem 4 denyAll 130916 mOvF)

/-- After `mSplit`, the store `hdr->asize = 0` with which `mfree(131112)`
starts. -/
def mFreed : Mem := memOfFree (store64 131088 16 0 mSplit)

/-- After `mFreed`, the call `hdr_merge(262152, 131088)` that `mfree(131112)`
makes. -/
def mJoined : Mem := memOfFree (hdr_merge_mem 262152 131088 mFreed)

/-- After `mSplit`, the whole call `mfree(131112)`. -/
def mMerged : Mem := memOfFree (mfree_mem 4 131112 mSplit)

/-- Flat state after `mmalloc(100)` at program start (the run that gives
`sibHeap1`). -/
def mSib1 : Mem :=
  memOf (mmalloc_mem 4 (grantAtMem Mem.blank 262144) 100 Mem.blank)

/-- Then `mmalloc(130908)` (the run that gives `sibHeap`). -/
def mSib : Mem := memOf (mmalloc_mem 4 denyAll 130908 mSib1)

/-- Then `mfree` of the left and of the right sibling (the run that gives
`sibFreed`). -/
def mSibFreed : Mem :=
  memOfFree (mfree_mem 4 262308 (memOfFree (mfree_mem 4 262184 mSib)))

/-- After `mSib`, `mfree` of the right and then of the left sibling. -/
def mSibFreedRL : Mem :=
  memOfFree (mfree_mem 4 262184 (memOfFree (mfree_mem 4 262308 mSib)))

/-- After `mSib1`, `mmalloc(100)` and `mmalloc(130784)` (the run that gives
`triC`). -/
def mTriC : Mem :=
  memOf (mmalloc_mem 4 denyAll 130784 (memOf (mmalloc_mem 4 denyAll 100 mSib1)))

/-- Then `mfree` of the first and of the third block (the run that gives
`triE`). -/
def mTriE : Mem :=
  memOfFree (mfree_mem 4 262432 (memOfFree (mfree_mem 4 262184 mTriC)))

/-- After `mTriC`, `mfree` of the third and of the first block (the run that
gives `triF`). -/
def mTriF : Mem :=
  memOfFree (mfree_mem 4 262184 (memOfFree (mfree_mem 4 262432 mTriC)))

/-! ## Helper lemmas -/

theorem grantAt_fresh (s : Heap) (a : Nat) :
    ∀ len b, grantAt s a len = some b → Fresh s b len := by
  intro len b h
  unfold grantAt at h
  split at h
  · cases h; assumption
  · cases h

theorem denyAll_fresh (s : Heap) :
    ∀ len b, denyAll len = some b → Fresh s b len := by
  intro len b h; cases h

theorem soleHeap_reachable : Reachable soleHeap [262184] :=
  Reachable.malloc 1 (grantAt Heap.empty 262144) 131032 262184 soleHeap
    Reachable.start (by decide) (grantAt_fresh _ _) rfl

theorem sibHeap_reachable : Reachable sibHeap [262308, 262184] :=
  Reachable.malloc 4 denyAll 130908 262308 sibHeap
    (Reachable.malloc 4 (grantAt Heap.empty 262144) 100 262184 sibHeap1
      Reachable.start (by decide) (grantAt_fresh _ _) rfl)
    (by decide) (denyAll_fresh _) rfl

theorem ovG_reachable : Reachable ovG [131236, 262184, 131112] := by
  have hB : Reachable ovB [131112, 262184] :=
    Reachable.malloc 4 (grantAt soleHeap 131072) 100 131112 ovB
      soleHeap_reachable (by decide) (grantAt_fresh _ _) rfl
  have hC : Reachable ovC [131236, 131112, 262184] :=
    Reachable.malloc 4 denyAll 130908 131236 ovC hB (by decide)
      (denyAll_fresh _) rfl
  have hD : Reachable ovD [131236, 131112] :=
    Reachable.free 4 262184 ovD hC (by decide) rfl
  have hE : Reachable ovE [131112] :=
    Reachable.free 4 131236 ovE hD (by decide) rfl
  have hF : Reachable ovF [262184, 131112] :=
    Reachable.malloc 4 denyAll 131032 262184 ovF hE (by decide)
      (denyAll_fresh _) rfl
  exact Reachable.malloc 4 denyAll 261964 131236 ovG hF (by decide)
    (denyAll_fresh _) rfl

theorem rdHdr_ok {s : Heap} {p : Nat} {h : Header} (hp : p ≠ NULL)
    (hh : s.hdrs p = some h) : rdHdr s p = .ok h := by
  unfold rdHdr
  rw [if_neg hp, hh]

theorem fits_iff {s : Heap} {size b : Nat} {h : Header} (hh : s.hdrs b = some h) :
    Fits s size b ↔ (h.asize = 0 ∧ size ≤ h.size) := by
  unfold Fits; rw [hh]

theorem ok_bind {α β : Type} (x : α) (f : α → Except Err β) :
    (Except.ok x >>= f) = f x := rfl

theorem mmalloc_of_fit (fuel : Nat) (mmap : Nat → Option Nat) (size hdr : Nat) (s : Heap)
    (hs : size ≠ 0) (ha : s.first_arena ≠ NULL)
    (hff : first_fit fuel size s = .ok hdr) (hh : hdr ≠ NULL) :
    mmalloc fuel mmap size s = mmalloc_finish hdr size s := by
  unfold mmalloc
  rw [if_neg hs, if_neg ha, hff, ok_bind, if_neg hh]

/-- The loop of `first_fit` along a walk returns the first fitting block. -/
theorem first_fit_loop_walk (s : Heap) (size first : Nat) :
    ∀ (l : List Nat) (b fuel : Nat), Walk s first (b :: l) →
      (b :: l).length ≤ fuel →
      first_fit_loop s size first fuel b = .ok (firstFitting s size (b :: l)) := by
  intro l
  induction l with
  | nil =>
    intro b fuel hw hf
    obtain ⟨hb, h, hh, hn⟩ := hw
    cases fuel with
    | zero => simp at hf
    | succ n =>
      unfold first_fit_loop
      rw [rdHdr_ok hb hh]
      by_cases hfit : Fits s size b
      · have hc := (fits_iff hh).1 hfit
        have : ¬ (h.asize ≠ 0 ∨ h.size < size) := by omega
        simp [firstFitting, hfit, this, bind, Except.bind, pure, Except.pure]
      · have hc : ¬ (h.asize = 0 ∧ size ≤ h.size) := fun hc => hfit ((fits_iff hh).2 hc)
        have : (h.asize ≠ 0 ∨ h.size < size) := by omega
        simp [firstFitting, hfit, this, hn, bind, Except.bind, pure, Except.pure]
  | cons c l ih =>
    intro b fuel hw hf
    obtain ⟨hb, ⟨h, hh, hn⟩, hcf, hw2⟩ := hw
    have hcn : c ≠ NULL := by
      cases l with
      | nil => exact hw2.1
      | cons d l => exact hw2.1
    cases fuel with
    | zero => simp at hf
    | succ n =>
      unfold first_fit_loop
      rw [rdHdr_ok hb hh]
      by_cases hfit : Fits s size b
      · have hc := (fits_iff hh).1 hfit
        have : ¬ (h.asize ≠ 0 ∨ h.size < size) := by omega
        simp [firstFitting, hfit, this, bind, Except.bind, pure, Except.pure]
      · have hc : ¬ (h.asize = 0 ∧ size ≤ h.size) := fun hc => hfit ((fits_iff hh).2 hc)
        have : (h.asize ≠ 0 ∨ h.size < size) := by omega
        have ih2 := ih c n hw2 (by simpa using hf)
        simp [firstFitting, hfit, this, hn, hcf, hcn, bind, Except.bind, pure, Except.pure]
        simpa [firstFitting] using ih2

/-- A chain of `next` links through non-null blocks other than `first`, whose
last block links to `first` or to `NULL`, is a walk. -/
theorem walk_of_chain (s : Heap) (first : Nat) :
    ∀ (l : List Nat) (b : Nat), (b :: l).Chain' (NextIs s) →
      (∀ x ∈ b :: l, x ≠ NULL) → (∀ x ∈ l, x ≠ first) →
      (∃ x h, (b :: l).getLast? = some x ∧ s.hdrs x = some h ∧
        (h.next = first ∨ h.next = NULL)) →
      Walk s first (b :: l) := by
  intro l
  induction l with
  | nil =>
    intro b _ hnn _ hlast
    obtain ⟨x, h, hx, hh, hn⟩ := hlast
    simp at hx
    subst hx
    exact ⟨hnn _ (by simp), h, hh, hn⟩
  | cons c l ih =>
    intro b hch hnn hnf hlast
    rw [List.chain'_cons] at hch
    refine ⟨hnn _ (by simp), hch.1, hnf c (by simp), ?_⟩
    apply ih c hch.2
    · intro x hx; exact hnn x (List.mem_cons_of_mem _ hx)
    · intro x hx; exact hnf x (List.mem_cons_of_mem _ hx)
    · simpa using hlast

theorem ring_walk {s : Heap} {bs : List Nat} (hr : Ring s bs) :
    ∃ l, bs = first_hdr s :: l ∧ Walk s (first_hdr s) (first_hdr s :: l) := by
  obtain ⟨hhead, hnd, hnn, hlink, x, h, hx, hh, hcl⟩ := hr
  cases bs with
  | nil => simp at hhead
  | cons b l =>
    simp at hhead
    subst hhead
    refine ⟨l, rfl, ?_⟩
    apply walk_of_chain s _ l _ hlink hnn
    · intro y hy hyb
      subst hyb
      exact (List.nodup_cons.1 hnd).1 hy
    · refine ⟨x, h, hx, hh, ?_⟩
      rcases hcl with h1 | h2
      · exact Or.inl h1
      · exact Or.inr h2.2

theorem first_fit_ring {s : Heap} {bs : List Nat} (hr : Ring s bs) (size fuel : Nat)
    (hf : bs.length ≤ fuel) :
    first_fit fuel size s = .ok (firstFitting s size bs) := by
  obtain ⟨l, hbs, hw⟩ := ring_walk hr
  subst hbs
  exact first_fit_loop_walk s size _ l _ fuel hw hf

theorem firstFitting_spec (s : Heap) (size : Nat) (bs : List Nat)
    (hnn : ∀ b ∈ bs, b ≠ NULL) :
    (firstFitting s size bs ≠ NULL → ∃ pre post,
        bs = pre ++ firstFitting s size bs :: post ∧
        Fits s size (firstFitting s size bs) ∧ ∀ b ∈ pre, ¬ Fits s size b) ∧
    (firstFitting s size bs = NULL ↔ ∀ b ∈ bs, ¬ Fits s size b) := by
  unfold firstFitting
  cases hfind : bs.find? (fun b => decide (Fits s size b)) with
  | none =>
    simp only [Option.getD_none, ne_eq, not_true_eq_false, false_implies, true_and, true_iff]
    intro b hb
    have := List.find?_eq_none.1 hfind b hb
    simpa using this
  | some r =>
    simp only [Option.getD_some]
    obtain ⟨hp, pre, post, hbs, hpre⟩ := List.find?_eq_some.1 hfind
    have hr : r ∈ bs := by rw [hbs]; simp
    have hfr : Fits s size r := by simpa using hp
    constructor
    · intro _
      refine ⟨pre, post, hbs, hfr, ?_⟩
      intro b hb
      have := hpre b hb
      simpa using this
    · constructor
      · intro h0; exact absurd h0 (hnn r hr)
      · intro hall; exact absurd hfr (hall r hr)

theorem ring3_ring : Ring ring3 [4112, 4186, 4220] where
  head := rfl
  nodup := by decide
  nonnull := by decide
  link := by
    rw [List.chain'_cons, List.chain'_cons]
    exact ⟨⟨_, rfl, rfl⟩, ⟨_, rfl, rfl⟩, List.chain'_singleton _⟩
  close := ⟨4220, ⟨4112, 200, 0⟩, rfl, rfl, Or.inl rfl⟩

theorem upd_same {α : Type} (f : Nat → Option α) (a : Nat) (v : α) :
    upd f a v a = some v := by
  simp [upd]

theorem upd_other {α : Type} (f : Nat → Option α) {a x : Nat} (v : α) (h : x ≠ a) :
    upd f a v x = f x := by
  simp [upd, h]

theorem upd_upd {α : Type} (f : Nat → Option α) (a : Nat) (v w : α) :
    upd (upd f a v) a w = upd f a w := by
  funext x
  by_cases h : x = a <;> simp [upd, h]

theorem setNext_ok {s : Heap} {p : Nat} {h : Header} (v : Nat) (hp : p ≠ NULL)
    (hh : s.hdrs p = some h) :
    setNext p v s = .ok ⟨s.first_arena, s.arenas,
      upd s.hdrs p ⟨v, h.size, h.asize⟩, s.mapped⟩ := by
  unfold setNext wrHdr
  rw [if_neg hp, hh]
  rfl

theorem setSize_ok {s : Heap} {p : Nat} {h : Header} (v : Nat) (hp : p ≠ NULL)
    (hh : s.hdrs p = some h) :
    setSize p v s = .ok ⟨s.first_arena, s.arenas,
      upd s.hdrs p ⟨h.next, v, h.asize⟩, s.mapped⟩ := by
  unfold setSize wrHdr
  rw [if_neg hp, hh]
  rfl

theorem setAsize_ok {s : Heap} {p : Nat} {h : Header} (v : Nat) (hp : p ≠ NULL)
    (hh : s.hdrs p = some h) :
    setAsize p v s = .ok ⟨s.first_arena, s.arenas,
      upd s.hdrs p ⟨h.next, h.size, v⟩, s.mapped⟩ := by
  unfold setAsize wrHdr
  rw [if_neg hp, hh]
  rfl

/-- The constructor `hdr_ctor` stores a free lone header, whatever the memory held before. -/
theorem hdr_ctor_ok (s : Heap) {hdr size : Nat} (hp : hdr ≠ NULL) (hs : 0 < size) :
    hdr_ctor hdr size s = .ok ⟨s.first_arena, s.arenas,
      upd s.hdrs hdr ⟨NULL, size, 0⟩, s.mapped⟩ := by
  unfold hdr_ctor
  rw [if_neg (by omega)]
  unfold setNext wrHdr
  rw [if_neg hp, ok_bind]
  rw [setSize_ok size hp (upd_same _ _ _), ok_bind,
    setAsize_ok 0 hp (upd_same _ _ _)]
  simp only [upd_upd]

theorem rdArena_ok {s : Heap} {a : Nat} {r : Arena} (ha : a ≠ NULL)
    (hr : s.arenas a = some r) : rdArena s a = .ok r := by
  unfold rdArena
  rw [if_neg ha, hr]

/-- A granted request makes `arena_alloc` record the rounded size. -/
theorem arena_alloc_ok (s : Heap) {mmap : Nat → Option Nat} {req a : Nat}
    (hreq : wadd SZ_ARENA SZ_HEADER < req) (hm : mmap (allign_page req) = some a)
    (ha : a ≠ NULL) :
    arena_alloc mmap req s = .ok (a, ⟨s.first_arena,
      upd s.arenas a ⟨NULL, allign_page req⟩, s.hdrs,
      (a, allign_page req) :: s.mapped⟩) := by
  unfold arena_alloc
  rw [if_neg (by omega)]
  simp only [hm]
  unfold wrArena
  rw [if_neg ha, ok_bind, if_neg ha, ok_bind]
  simp only [upd_upd, upd_same, Option.getD_some]
  rfl

/-- A denied request makes `arena_alloc` return `NULL` and change nothing. -/
theorem arena_alloc_denied (s : Heap) {mmap : Nat → Option Nat} {req : Nat}
    (hreq : wadd SZ_ARENA SZ_HEADER < req) (hm : mmap (allign_page req) = none) :
    arena_alloc mmap req s = .ok (NULL, s) := by
  unfold arena_alloc
  rw [if_neg (by omega)]
  simp only [hm]

/-- With an operating system that denies every mapping and no arena yet,
`mmalloc(size)` returns `NULL` and leaves the state unchanged for every size
from 1 up to `SIZE_MAX - 40` (the part of C7 that the code honours). -/
theorem mmalloc_denied_returns_null (fuel size : Nat) (s : Heap)
    (hs : s.first_arena = NULL) (h0 : 0 < size) (h1 : size < WORD - 40) :
    mmalloc fuel denyAll size s = .ok (NULL, s) := by
  have hreq : wadd SZ_ARENA SZ_HEADER < wadd (wadd size SZ_ARENA) SZ_HEADER := by
    unfold wadd WORD SZ_ARENA SZ_HEADER; unfold WORD at h1; omega
  unfold mmalloc
  rw [if_neg (by omega), if_pos hs, arena_alloc_denied s hreq rfl, ok_bind]
  rfl

theorem allign_page_bounds {n : Nat} (h0 : 0 < n) (hn : n < WORD)
    (hlen : 0 < allign_page n) :
    n ≤ allign_page n ∧ allign_page n < n + PAGE_SIZE ∧
      allign_page n % PAGE_SIZE = 0 := by
  unfold allign_page wmul wadd wsub WORD PAGE_SIZE at *
  omega

theorem arena_last_chain (s : Heap) :
    ∀ (l : List Nat) (a fuel : Nat), ArenaChain s (a :: l) →
      (a :: l).length ≤ fuel →
      arena_last fuel s a = .ok ((a :: l).getLast (List.cons_ne_nil _ _)) := by
  intro l
  induction l with
  | nil =>
    intro a fuel hc hf
    obtain ⟨ha, r, hr, hn⟩ := hc
    cases fuel with
    | zero => simp at hf
    | succ n =>
      unfold arena_last
      rw [rdArena_ok ha hr, ok_bind, if_neg (by simp [hn])]
      rfl
  | cons b l ih =>
    intro a fuel hc hf
    obtain ⟨ha, ⟨r, hr, hn⟩, hb, hc2⟩ := hc
    cases fuel with
    | zero => simp at hf
    | succ n =>
      unfold arena_last
      rw [rdArena_ok ha hr, ok_bind, if_pos (by rw [hn]; exact hb), hn,
        ih b n hc2 (by simpa using hf)]
      simp

theorem wrHdr_ok (s : Heap) {p : Nat} (f : Header → Header) (hp : p ≠ NULL) :
    wrHdr p f s = .ok ⟨s.first_arena, s.arenas,
      upd s.hdrs p (f ((s.hdrs p).getD ⟨0, 0, 0⟩)), s.mapped⟩ := by
  unfold wrHdr
  rw [if_neg hp]

/-- Result of `hdr_split` under its asserted precondition: the new right block `p`
takes over the old `next` link (or points back to `hdr` when `hdr` was a
lone block) and the remainder of the capacity; `hdr` keeps `req_size`. -/
theorem hdr_split_ok {s : Heap} {hdr req : Nat} {h : Header} (hp : hdr ≠ NULL)
    (hh : s.hdrs hdr = some h) (hpre : wadd req (wmul 2 SZ_HEADER) ≤ h.size)
    (hq : wadd (wadd hdr SZ_HEADER) req ≠ NULL)
    (hne : wadd (wadd hdr SZ_HEADER) req ≠ hdr) :
    hdr_split hdr req s = .ok (wadd (wadd hdr SZ_HEADER) req,
      ⟨s.first_arena, s.arenas,
        upd (upd s.hdrs (wadd (wadd hdr SZ_HEADER) req)
          ⟨if h.next ≠ NULL then h.next else hdr,
            wsub (wsub h.size req) SZ_HEADER, 0⟩) hdr ⟨wadd (wadd hdr SZ_HEADER) req, req, h.asize⟩,
        s.mapped⟩) := by
  have hne2 : hdr ≠ wadd (wadd hdr SZ_HEADER) req := fun e => hne e.symm
  unfold hdr_split
  rw [rdHdr_ok hp hh, ok_bind, if_neg (by omega)]
  have key : ∀ v : Nat,
      (do
        let y ← setNext (wadd (wadd hdr SZ_HEADER) req) v s
        let s2 ← setNext hdr (wadd (wadd hdr SZ_HEADER) req) y
        let h2 ← rdHdr s2 hdr
        let s3 ← setSize (wadd (wadd hdr SZ_HEADER) req)
          (wsub (wsub h2.size req) SZ_HEADER) s2
        let s4 ← setAsize (wadd (wadd hdr SZ_HEADER) req) 0 s3
        let s5 ← setSize hdr req s4
        (pure (wadd (wadd hdr SZ_HEADER) req, s5) : Except Err (Nat × Heap)))
      = .ok (wadd (wadd hdr SZ_HEADER) req,
          ⟨s.first_arena, s.arenas,
            upd (upd s.hdrs (wadd (wadd hdr SZ_HEADER) req)
              ⟨v, wsub (wsub h.size req) SZ_HEADER, 0⟩) hdr
              ⟨wadd (wadd hdr SZ_HEADER) req, req, h.asize⟩,
            s.mapped⟩) := by
    intro v
    unfold setNext
    rw [wrHdr_ok s _ hq, ok_bind, wrHdr_ok _ _ hp, ok_bind]
    simp only [upd_other _ _ hne2, hh, Option.getD_some]
    rw [rdHdr_ok hp (upd_same _ _ _), ok_bind]
    unfold setSize setAsize
    rw [wrHdr_ok _ _ hq, ok_bind, wrHdr_ok _ _ hq, ok_bind, wrHdr_ok _ _ hp, ok_bind]
    simp only [upd_other _ _ hne, upd_other _ _ hne2, upd_same, Option.getD_some, pure,
      Except.pure]
    congr 2
    congr 1
    funext x
    by_cases hx : x = hdr
    · subst hx; simp [upd, hne2]
    · by_cases hx2 : x = wadd (wadd hdr SZ_HEADER) req <;> simp [upd, hx, hx2]
  dsimp only
  split
  · exact key _
  · exact key _

theorem arenaChain_congr (s t : Heap) :
    ∀ (l : List Nat), (∀ x ∈ l, t.arenas x = s.arenas x) →
      ArenaChain s l → ArenaChain t l := by
  intro l
  induction l with
  | nil => intro _ h; exact h
  | cons a l ih =>
    intro heq hc
    cases l with
    | nil =>
      obtain ⟨ha, r, hr, hn⟩ := hc
      exact ⟨ha, r, by rw [heq a (by simp)]; exact hr, hn⟩
    | cons b l =>
      obtain ⟨ha, ⟨r, hr, hn⟩, hb, hc2⟩ := hc
      refine ⟨ha, ⟨r, by rw [heq a (by simp)]; exact hr, hn⟩, hb, ?_⟩
      exact ih (fun x hx => heq x (List.mem_cons_of_mem _ hx)) hc2

/-- Appending a fresh arena behind the last one extends the arena chain. -/
theorem arenaChain_snoc (s t : Heap) (a : Nat) (ha : a ≠ NULL)
    (hta : ∃ r, t.arenas a = some r ∧ r.next = NULL) :
    ∀ (l : List Nat) (b : Nat), ArenaChain s (b :: l) → (b :: l).Nodup →
      (∀ x ∈ b :: l, x ≠ (b :: l).getLast (List.cons_ne_nil _ _) →
        t.arenas x = s.arenas x) →
      (∃ r, t.arenas ((b :: l).getLast (List.cons_ne_nil _ _)) = some r ∧ r.next = a) →
      ArenaChain t (b :: l ++ [a]) := by
  intro l
  induction l with
  | nil =>
    intro b hc _ _ hlast
    exact ⟨hc.1, by simpa using hlast, ha, ha, hta⟩
  | cons c l ih =>
    intro b hc hnd heq hlast
    obtain ⟨hb, ⟨r, hr, hn⟩, hcn, hc2⟩ := hc
    have hbl : b ≠ (b :: c :: l).getLast (List.cons_ne_nil _ _) := by
      intro hEq
      have hmem : (c :: l).getLast (List.cons_ne_nil _ _) ∈ c :: l :=
        List.getLast_mem _
      rw [List.getLast_cons (List.cons_ne_nil _ _)] at hEq
      rw [← hEq] at hmem
      exact (List.nodup_cons.1 hnd).1 hmem
    refine ⟨hb, ⟨r, by rw [heq b (by simp) hbl]; exact hr, hn⟩, hcn, ?_⟩
    apply ih c hc2 (List.nodup_cons.1 hnd).2
    · intro x hx hxl
      apply heq x (List.mem_cons_of_mem _ hx)
      rw [List.getLast_cons (List.cons_ne_nil _ _)]
      exact hxl
    · rw [List.getLast_cons (List.cons_ne_nil _ _)] at hlast
      exact hlast

theorem walk_congr (s t : Heap) (first : Nat) :
    ∀ (l : List Nat),
      (∀ x ∈ l, ∀ h, s.hdrs x = some h → ∃ k, t.hdrs x = some k ∧ k.next = h.next) →
      Walk s first l → Walk t first l := by
  intro l
  induction l with
  | nil => intro _ h; exact h
  | cons b l ih =>
    intro heq hw
    cases l with
    | nil =>
      obtain ⟨hb, h, hh, hn⟩ := hw
      obtain ⟨k, hk, hkn⟩ := heq b (by simp) h hh
      exact ⟨hb, k, hk, by rw [hkn]; exact hn⟩
    | cons c l =>
      obtain ⟨hb, ⟨h, hh, hn⟩, hc, hw2⟩ := hw
      obtain ⟨k, hk, hkn⟩ := heq b (by simp) h hh
      exact ⟨hb, ⟨k, hk, by rw [hkn]; exact hn⟩, hc,
        ih (fun x hx => heq x (List.mem_cons_of_mem _ hx)) hw2⟩

/-- Linking a new block behind the last block of a walk, with `next` back to
`first`, extends the walk. -/
theorem walk_snoc (s t : Heap) (first n : Nat) (hn0 : n ≠ NULL) (hnf : n ≠ first)
    (htn : ∃ h, t.hdrs n = some h ∧ h.next = first) :
    ∀ (l : List Nat) (b : Nat), Walk s first (b :: l) → (b :: l).Nodup →
      (∀ x ∈ b :: l, x ≠ (b :: l).getLast (List.cons_ne_nil _ _) →
        ∀ h, s.hdrs x = some h → ∃ k, t.hdrs x = some k ∧ k.next = h.next) →
      NextIs t ((b :: l).getLast (List.cons_ne_nil _ _)) n →
      Walk t first (b :: l ++ [n]) := by
  intro l
  induction l with
  | nil =>
    intro b hw _ _ hlast
    obtain ⟨h, hh, hhn⟩ := htn
    exact ⟨hw.1, by simpa using hlast, hnf, hn0, h, hh, Or.inl hhn⟩
  | cons c l ih =>
    intro b hw hnd heq hlast
    obtain ⟨hb, ⟨h, hh, hn⟩, hcf, hw2⟩ := hw
    have hbl : b ≠ (b :: c :: l).getLast (List.cons_ne_nil _ _) := by
      intro hEq
      have hmem : (c :: l).getLast (List.cons_ne_nil _ _) ∈ c :: l :=
        List.getLast_mem _
      rw [List.getLast_cons (List.cons_ne_nil _ _)] at hEq
      rw [← hEq] at hmem
      exact (List.nodup_cons.1 hnd).1 hmem
    obtain ⟨k, hk, hkn⟩ := heq b (by simp) hbl h hh
    refine ⟨hb, ⟨k, hk, by rw [hkn]; exact hn⟩, hcf, ?_⟩
    apply ih c hw2 (List.nodup_cons.1 hnd).2
    · intro x hx hxl
      apply heq x (List.mem_cons_of_mem _ hx)
      rw [List.getLast_cons (List.cons_ne_nil _ _)]
      exact hxl
    · rw [List.getLast_cons (List.cons_ne_nil _ _)] at hlast
      exact hlast

/-- What a walk says about its list: links, non-null blocks, and the record
of the last block. -/
theorem walk_parts (s : Heap) (first : Nat) :
    ∀ (l : List Nat), Walk s first l →
      l.Chain' (NextIs s) ∧ (∀ b ∈ l, b ≠ NULL) ∧
      ∃ x h, l.getLast? = some x ∧ s.hdrs x = some h ∧
        (h.next = first ∨ h.next = NULL) := by
  intro l
  induction l with
  | nil => intro h; exact absurd h (by simp [Walk])
  | cons b l ih =>
    intro hw
    cases l with
    | nil =>
      obtain ⟨hb, h, hh, hn⟩ := hw
      exact ⟨List.chain'_singleton _, by simpa using hb, b, h, rfl, hh, hn⟩
    | cons c l =>
      obtain ⟨hb, hbc, _, hw2⟩ := hw
      obtain ⟨hch, hnn, x, h, hx, hh, hn⟩ := ih hw2
      refine ⟨List.chain'_cons.2 ⟨hbc, hch⟩, ?_, x, h, ?_, hh, hn⟩
      · intro y hy
        rcases List.mem_cons.1 hy with h1 | h1
        · rw [h1]; exact hb
        · exact hnn y h1
      · simpa using hx

/-- The loop of `hdr_get_prev`, started inside a walk that closes at `first`,
stops at the last block. -/
theorem get_prev_loop_walk (s : Heap) (first : Nat) :
    ∀ (l : List Nat) (b fuel : Nat), Walk s first (b :: l) →
      NextIs s ((b :: l).getLast (List.cons_ne_nil _ _)) first →
      (b :: l).length ≤ fuel →
      get_prev_loop s first fuel b
        = .ok ((b :: l).getLast (List.cons_ne_nil _ _)) := by
  intro l
  induction l with
  | nil =>
    intro b fuel hw hlast hf
    obtain ⟨hb, h, hh, _⟩ := hw
    obtain ⟨k, hk, hkn⟩ := hlast
    simp only [List.getLast_singleton] at hk
    rw [hh] at hk
    cases hk
    cases fuel with
    | zero => simp at hf
    | succ n =>
      unfold get_prev_loop
      rw [rdHdr_ok hb hh, ok_bind, if_neg (by simp [hkn])]
      rfl
  | cons c l ih =>
    intro b fuel hw hlast hf
    obtain ⟨hb, ⟨h, hh, hn⟩, hcf, hw2⟩ := hw
    cases fuel with
    | zero => simp at hf
    | succ n =>
      unfold get_prev_loop
      rw [rdHdr_ok hb hh, ok_bind, if_pos (by rw [hn]; exact hcf), hn]
      rw [List.getLast_cons (List.cons_ne_nil _ _)] at hlast ⊢
      exact ih c n hw2 hlast (by simpa using hf)

theorem arenaChain_head_ne_null {s : Heap} {a : Nat} {l : List Nat}
    (hc : ArenaChain s (a :: l)) : a ≠ NULL := by
  cases l with
  | nil => exact hc.1
  | cons b l => exact hc.1

theorem walk_head_ne_null {s : Heap} {first b : Nat} {l : List Nat}
    (hw : Walk s first (b :: l)) : b ≠ NULL := by
  cases l with
  | nil => exact hw.1
  | cons c l => exact hw.1

/-- Shape of a well-formed heap: the ring starts at the anchor, and its last
block links back to the anchor, or is the lone anchor with `next == NULL`. -/
theorem wf_shape {s : Heap} {as bs : List Nat} (hwf : WellFormed s as bs) :
    s.first_arena ≠ NULL ∧ ∃ l, bs = first_hdr s :: l ∧
      Walk s (first_hdr s) (first_hdr s :: l) ∧
      ∃ hl, s.hdrs ((first_hdr s :: l).getLast (List.cons_ne_nil _ _)) = some hl ∧
        ((l ≠ [] ∧ hl.next = first_hdr s) ∨ (l = [] ∧ hl.next = NULL)) := by
  obtain ⟨l, hbs, hw⟩ := ring_walk hwf.ring
  have harena : s.first_arena ≠ NULL := by
    have hc := hwf.arena_chain
    have hh := hwf.arena_head
    cases has : as with
    | nil => rw [has] at hc; exact absurd hc (by simp [ArenaChain])
    | cons x xs =>
      rw [has] at hc hh
      simp at hh
      subst hh
      exact arenaChain_head_ne_null hc
  refine ⟨harena, l, hbs, hw, ?_⟩
  obtain ⟨x, hx, hxl, hxh, hcl⟩ := hwf.ring.close
  rw [hbs] at hxl hcl
  have hlast_eq : (first_hdr s :: l).getLast (List.cons_ne_nil _ _) = x := by
    have := List.getLast?_eq_getLast _ (List.cons_ne_nil (first_hdr s) l)
    rw [hxl] at this
    exact (Option.some.inj this).symm
  rw [hlast_eq]
  refine ⟨hx, hxh, ?_⟩
  cases l with
  | nil =>
    right
    simp at hlast_eq
    subst hlast_eq
    refine ⟨rfl, ?_⟩
    rcases hcl with h1 | h1
    · exact absurd h1 (hwf.lone_null hx hxh)
    · exact h1.2
  | cons c l =>
    left
    refine ⟨by simp, ?_⟩
    rcases hcl with h1 | h1
    · exact h1
    · exact absurd h1.1 (by simp)

/-- The block that `mmalloc` takes for the last block of the ring:
`hdr_get_prev(first)` when `first->next` is set, `first` itself otherwise. -/
theorem last_block_of_walk {t : Heap} {l : List Nat} (harena : t.first_arena ≠ NULL)
    (hw : Walk t (first_hdr t) (first_hdr t :: l)) {hl : Header}
    (hlast : t.hdrs ((first_hdr t :: l).getLast (List.cons_ne_nil _ _)) = some hl)
    (hcl : (l ≠ [] ∧ hl.next = first_hdr t) ∨ (l = [] ∧ hl.next = NULL))
    (fuel : Nat) (hf : (first_hdr t :: l).length ≤ fuel) :
    ∃ hfst, t.hdrs (first_hdr t) = some hfst ∧
      (if hfst.next ≠ NULL then hdr_get_prev fuel (first_hdr t) t
        else pure (first_hdr t))
        = .ok ((first_hdr t :: l).getLast (List.cons_ne_nil _ _)) := by
  cases l with
  | nil =>
    simp only [List.getLast_singleton] at hlast
    rcases hcl with h1 | h1
    · exact absurd rfl h1.1
    · refine ⟨hl, hlast, ?_⟩
      rw [if_neg (by simp [h1.2])]
      rfl
  | cons c l =>
    have hw0 := hw
    obtain ⟨hb, ⟨h, hh, hn⟩, hcf, hw2⟩ := hw
    have hcn : c ≠ NULL := walk_head_ne_null hw2
    have hxnext : hl.next = first_hdr t := by
      rcases hcl with h1 | h1
      · exact h1.2
      · exact absurd h1.1 (by simp)
    refine ⟨h, hh, ?_⟩
    rw [if_pos (by rw [hn]; exact hcn)]
    unfold hdr_get_prev
    rw [if_neg (by simpa using harena), rdHdr_ok hb hh, ok_bind,
      if_neg (by rw [hn]; simp [hcn, hcf])]
    exact get_prev_loop_walk t (first_hdr t) (c :: l) (first_hdr t) fuel hw0
      ⟨hl, hlast, hxnext⟩ hf

/-- When no block of `l` fits and `n` does, the first fitting block of
`l ++ [n]` is `n`. -/
theorem firstFitting_snoc (s : Heap) (size n : Nat) (hn : Fits s size n) :
    ∀ (l : List Nat), (∀ b ∈ l, ¬ Fits s size b) →
      firstFitting s size (l ++ [n]) = n := by
  intro l
  induction l with
  | nil => intro _; simp [firstFitting, hn]
  | cons b l ih =>
    intro h
    have hb : ¬ Fits s size b := h b (by simp)
    have := ih (fun x hx => h x (List.mem_cons_of_mem _ hx))
    simpa [firstFitting, hb] using this

/-- A walk that starts at the anchor through distinct blocks and whose last
block links back to the anchor is a ring. -/
theorem ring_of_walk {s : Heap} {l : List Nat}
    (hw : Walk s (first_hdr s) (first_hdr s :: l)) (hnd : (first_hdr s :: l).Nodup)
    (hcl : NextIs s ((first_hdr s :: l).getLast (List.cons_ne_nil _ _)) (first_hdr s)) :
    Ring s (first_hdr s :: l) := by
  obtain ⟨hch, hnn, _⟩ := walk_parts s _ _ hw
  obtain ⟨h, hh, hn⟩ := hcl
  exact ⟨rfl, hnd, hnn, hch, _, h, List.getLast?_eq_getLast _ _, hh, Or.inl hn⟩

theorem arenaChain_parts (s : Heap) :
    ∀ (l : List Nat) (hne : l ≠ []), ArenaChain s l →
      (∀ b ∈ l, b ≠ NULL) ∧
      ∃ r, s.arenas (l.getLast hne) = some r ∧ r.next = NULL := by
  intro l
  induction l with
  | nil => intro hne; exact absurd rfl hne
  | cons a l ih =>
    intro hne hc
    cases l with
    | nil =>
      obtain ⟨ha, r, hr, hn⟩ := hc
      exact ⟨by simpa using ha, r, by simpa using hr, hn⟩
    | cons b l =>
      obtain ⟨ha, _, _, hc2⟩ := hc
      obtain ⟨hnn, r, hr, hn⟩ := ih (List.cons_ne_nil _ _) hc2
      refine ⟨?_, r, ?_, hn⟩
      · intro y hy
        rcases List.mem_cons.1 hy with h1 | h1
        · rw [h1]; exact ha
        · exact hnn y h1
      · rw [List.getLast_cons (List.cons_ne_nil _ _)]
        exact hr

theorem ite_bind {α β : Type} (c : Prop) [Decidable c] (x y : Except Err α)
    (k : α → Except Err β) :
    (if c then x >>= k else y >>= k) = ((if c then x else y) >>= k) := by
  split <;> rfl

/-- Growth path of `mmalloc`, up to the second `first_fit`: when no block of a
well-formed ring fits and the operating system grants a fresh mapping at `a`,
`mmalloc` continues in `spliceHeap`. -/
theorem mmalloc_splice {s : Heap} {as bs : List Nat} (hwf : WellFormed s as bs)
    {size a fuel : Nat} {mmap : Nat → Option Nat}
    (h0 : 0 < size) (hov : size + 40 < WORD)
    (hnofit : ∀ b ∈ bs, ¬ Fits s size b)
    (hgrant : mmap (allign_page (size + 40)) = some a)
    (hfresh : Fresh s a (allign_page (size + 40)))
    (hfa : as.length ≤ fuel) (hfb : bs.length + 1 ≤ fuel)
    (hane : as ≠ []) (hbne : bs ≠ []) :
    mmalloc fuel mmap size s =
      (first_fit fuel size (spliceHeap s a (allign_page (size + 40))
          (as.getLast hane) (bs.getLast hbne)) >>= fun hdr =>
        mmalloc_finish hdr size (spliceHeap s a (allign_page (size + 40))
          (as.getLast hane) (bs.getLast hbne))) := by
  obtain ⟨harena, l, hbs, hw, hl, hlast, hcl⟩ := wf_shape hwf
  subst hbs
  obtain ⟨x, xs, has⟩ := List.exists_cons_of_ne_nil hane
  subst has
  have hxfa : x = s.first_arena := by
    have := hwf.arena_head
    simpa using this
  subst hxfa
  obtain ⟨hanull, hlen0, hinsp, hdisj⟩ := hfresh
  have hreq : wadd (wadd size SZ_ARENA) SZ_HEADER = size + 40 := by
    unfold wadd WORD SZ_ARENA SZ_HEADER; unfold WORD at hov; omega
  have hb := allign_page_bounds (n := size + 40) (by omega) hov hlen0
  generalize hlen : allign_page (size + 40) = len at *
  have hhdr2 : wadd a SZ_ARENA = a + 16 := by
    unfold wadd SZ_ARENA; unfold WORD at *; omega
  have hcap : wsub (wsub len SZ_ARENA) SZ_HEADER = len - 40 := by
    unfold wsub SZ_ARENA SZ_HEADER; unfold WORD at *; omega
  have ha_as : a ∉ s.first_arena :: xs := by
    intro hmem
    obtain ⟨r, hr, hr1, hr2⟩ := hwf.arena_mapped a hmem
    rcases hdisj r hr with h | h <;> omega
  have hh2_bs : a + 16 ∉ first_hdr s :: l := by
    intro hmem
    obtain ⟨r, hr, hr1, hr2⟩ := hwf.hdr_mapped _ hmem
    unfold SZ_HEADER at hr2
    rcases hdisj r hr with h | h <;> omega
  have hff : first_fit fuel size s = .ok NULL := by
    rw [first_fit_ring hwf.ring size fuel (by omega)]
    exact congrArg _ ((firstFitting_spec s size _ hwf.ring.nonnull).2.2 hnofit)
  unfold mmalloc
  rw [if_neg (by omega), if_neg harena, hff, ok_bind, if_pos rfl, hreq,
    arena_alloc_ok s (by unfold wadd WORD SZ_ARENA SZ_HEADER; omega)
      (by rw [hlen]; exact hgrant) hanull, ok_bind]
  dsimp only
  rw [if_neg hanull]
  rw [hlen]
  -- the arena list
  have hchain1 : ArenaChain ⟨s.first_arena, upd s.arenas a ⟨NULL, len⟩, s.hdrs,
      (a, len) :: s.mapped⟩ (s.first_arena :: xs) := by
    apply arenaChain_congr s _ _ _ hwf.arena_chain
    intro y hy
    exact upd_other _ _ (fun e => ha_as (e ▸ hy))
  have hlastA_mem : (s.first_arena :: xs).getLast hane ∈ s.first_arena :: xs := List.getLast_mem _
  have hlastA_ne : (s.first_arena :: xs).getLast hane ≠ a := fun e => ha_as (e ▸ hlastA_mem)
  obtain ⟨hnnA, rl, hrl, _⟩ := arenaChain_parts s (s.first_arena :: xs) hane hwf.arena_chain
  have hlastA_null : (s.first_arena :: xs).getLast hane ≠ NULL := hnnA _ hlastA_mem
  unfold arena_append
  dsimp only
  rw [if_neg harena, arena_last_chain _ xs _ fuel hchain1 hfa, ok_bind]
  unfold wrArena
  rw [if_neg hlastA_null, ok_bind]
  dsimp only
  rw [upd_other _ _ hlastA_ne, hrl, Option.getD_some]
  rw [rdArena_ok hanull (show (upd (upd s.arenas a ⟨NULL, len⟩) ((s.first_arena :: xs).getLast hane)
      ⟨a, rl.size⟩) a = some ⟨NULL, len⟩ by
        rw [upd_other _ _ (fun e => hlastA_ne e.symm), upd_same]), ok_bind]
  dsimp only
  rw [hhdr2, hcap, hdr_ctor_ok _ (by unfold NULL; omega) (by omega), ok_bind]
  dsimp only
  -- the ring, seen in the heap after `hdr_ctor`
  have hfeq : ∀ t : Heap, t.first_arena = s.first_arena → first_hdr t = first_hdr s := by
    intro t ht; unfold first_hdr; rw [ht]
  generalize ht3 : (⟨s.first_arena,
      upd (upd s.arenas a ⟨NULL, len⟩) ((s.first_arena :: xs).getLast hane) ⟨a, rl.size⟩,
      upd s.hdrs (a + 16) ⟨NULL, len - 40, 0⟩, (a, len) :: s.mapped⟩ : Heap) = t3
  have h3a : t3.first_arena = s.first_arena := by rw [← ht3]
  have h3h : t3.hdrs = upd s.hdrs (a + 16) ⟨NULL, len - 40, 0⟩ := by rw [← ht3]
  have h3f : first_hdr t3 = first_hdr s := hfeq t3 h3a
  have h3same : ∀ b ∈ first_hdr s :: l, t3.hdrs b = s.hdrs b := by
    intro b hb
    rw [h3h]
    exact upd_other _ _ (fun e => hh2_bs (e ▸ hb))
  have hw3 : Walk t3 (first_hdr t3) (first_hdr t3 :: l) := by
    rw [h3f]
    apply walk_congr s t3 _ _ _ hw
    intro b hb h hh
    exact ⟨h, by rw [h3same b hb]; exact hh, rfl⟩
  have hlastmem : (first_hdr s :: l).getLast hbne ∈ first_hdr s :: l := List.getLast_mem _
  have hlast3 : t3.hdrs ((first_hdr t3 :: l).getLast (List.cons_ne_nil _ _)) = some hl := by
    simp only [h3f]
    rw [h3same _ hlastmem]; exact hlast
  obtain ⟨hfst, hfst3, hprev⟩ := last_block_of_walk (by rw [h3a]; exact harena) hw3 hlast3
    (by rw [h3f]; exact hcl) fuel (by simp only [List.length_cons] at hfb ⊢; omega)
  have hfnull : first_hdr t3 ≠ NULL := walk_head_ne_null hw3
  rw [rdHdr_ok hfnull hfst3, ok_bind, ite_bind, hprev, ok_bind]
  simp only [h3f] at hlast3 ⊢
  have hlast_null : (first_hdr s :: l).getLast hbne ≠ NULL :=
    hwf.ring.nonnull _ hlastmem
  have hlast_ne : (first_hdr s :: l).getLast hbne ≠ a + 16 := fun e => hh2_bs (e ▸ hlastmem)
  rw [setNext_ok (a + 16) hlast_null hlast3, ok_bind]
  rw [setNext_ok (first_hdr s) (show a + 16 ≠ NULL by unfold NULL; omega)
    (show (upd t3.hdrs ((first_hdr s :: l).getLast hbne) ⟨a + 16, hl.size, hl.asize⟩) (a + 16)
      = some ⟨NULL, len - 40, 0⟩ by
        rw [upd_other _ _ (fun e => hlast_ne e.symm), h3h, upd_same]), ok_bind]
  dsimp only
  subst ht3
  unfold spliceHeap
  rw [hrl, hlast]
  rfl

/-- Last step of `mmalloc` on a free block that `hdr_should_split` declines:
the block is marked allocated and nothing else changes. -/
theorem mmalloc_finish_nosplit {t : Heap} {hdr size : Nat} {h : Header}
    (hp : hdr ≠ NULL) (hh : t.hdrs hdr = some h) (hfree : h.asize = 0)
    (h0 : 0 < size) (hns : ¬ (wsub h.size size ≥ wadd SZ_HEADER 4)) :
    mmalloc_finish hdr size t = .ok (wadd hdr SZ_HEADER,
      ⟨t.first_arena, t.arenas, upd t.hdrs hdr ⟨h.next, h.size, size⟩, t.mapped⟩) := by
  unfold mmalloc_finish hdr_should_split
  rw [rdHdr_ok hp hh, ok_bind, if_neg (by simp [hfree]), if_neg (by omega),
    decide_eq_false hns]
  simp only [pure, Except.pure, ok_bind, Bool.false_eq_true, if_false]
  rw [setAsize_ok size hp hh, ok_bind]

/-- Last step of `mmalloc` on a free block that `hdr_should_split` accepts and
whose size meets the assertion of `hdr_split`: the block keeps `size` bytes
and is marked allocated, the remainder becomes a free block behind it. -/
theorem mmalloc_finish_split {t : Heap} {hdr size : Nat} {h : Header}
    (hp : hdr ≠ NULL) (hh : t.hdrs hdr = some h) (hfree : h.asize = 0)
    (h0 : 0 < size) (hs : wsub h.size size ≥ wadd SZ_HEADER 4)
    (hpre : wadd size (wmul 2 SZ_HEADER) ≤ h.size)
    (hq : wadd (wadd hdr SZ_HEADER) size ≠ NULL)
    (hne : wadd (wadd hdr SZ_HEADER) size ≠ hdr) :
    mmalloc_finish hdr size t = .ok (wadd hdr SZ_HEADER,
      ⟨t.first_arena, t.arenas,
        upd (upd t.hdrs (wadd (wadd hdr SZ_HEADER) size)
          ⟨if h.next ≠ NULL then h.next else hdr,
            wsub (wsub h.size size) SZ_HEADER, 0⟩) hdr
          ⟨wadd (wadd hdr SZ_HEADER) size, size, size⟩,
        t.mapped⟩) := by
  unfold mmalloc_finish hdr_should_split
  rw [rdHdr_ok hp hh, ok_bind, if_neg (by simp [hfree]), if_neg (by omega),
    decide_eq_true hs]
  simp only [pure, Except.pure, ok_bind, if_true]
  rw [hdr_split_ok hp hh hpre hq hne]
  simp only [Except.map]
  rw [ok_bind, setAsize_ok size hp (upd_same _ _ _), ok_bind]
  simp only [upd_upd]

theorem ring_of_walk_at {u : Heap} {first : Nat} {l : List Nat}
    (hf : first_hdr u = first) (hw : Walk u first (first :: l))
    (hnd : (first :: l).Nodup)
    (hcl : NextIs u ((first :: l).getLast (List.cons_ne_nil _ _)) first) :
    Ring u (first :: l) := by
  subst hf
  exact ring_of_walk hw hnd hcl

theorem getLast_snoc (b n : Nat) (l : List Nat) :
    (b :: (l ++ [n])).getLast (List.cons_ne_nil _ _) = n := by
  simp

/-- Growth of the heap by one arena (the part of C6 that the code honours):
in a well-formed heap, when no block of the ring fits, the byte count does
not overflow, the operating system grants a fresh mapping at `a`, and the
leftover of the new block is not in the range 28..47 on which
`hdr_should_split` and the assertion of `hdr_split` disagree, `mmalloc`
returns the payload `a + 40` of the new arena's first block.  Exactly one
region is mapped, the arena is appended at the tail of the arena list, and
the ring is the old ring followed by the new block (and by the split-off
remainder, if the block was split); sizes and allocation marks of the old
blocks are unchanged. -/
theorem mmalloc_grows_ring {s : Heap} {as bs : List Nat} (hwf : WellFormed s as bs)
    {size a fuel : Nat} {mmap : Nat → Option Nat}
    (h0 : 0 < size) (hov : size + 40 < WORD)
    (hnofit : ∀ b ∈ bs, ¬ Fits s size b)
    (hgrant : mmap (allign_page (size + 40)) = some a)
    (hfresh : Fresh s a (allign_page (size + 40)))
    (hsplit : allign_page (size + 40) - 40 - size < 28 ∨
      48 ≤ allign_page (size + 40) - 40 - size)
    (hfa : as.length ≤ fuel) (hfb : bs.length + 1 ≤ fuel) :
    ∃ s1 rest, mmalloc fuel mmap size s = .ok (a + 40, s1) ∧
      s1.first_arena = s.first_arena ∧
      s1.mapped = (a, allign_page (size + 40)) :: s.mapped ∧
      s1.arenas a = some ⟨NULL, allign_page (size + 40)⟩ ∧
      ArenaChain s1 (as ++ [a]) ∧
      (rest = [] ∨ rest = [a + 40 + size]) ∧
      Ring s1 (bs ++ (a + 16) :: rest) ∧
      (∃ h, s1.hdrs (a + 16) = some h ∧ h.asize = size ∧ size ≤ h.size) ∧
      (∀ b ∈ bs, ∀ h, s.hdrs b = some h →
        ∃ k, s1.hdrs b = some k ∧ k.size = h.size ∧ k.asize = h.asize) := by
  obtain ⟨harena, l, hbs, hw, hl, hlast, hcl⟩ := wf_shape hwf
  have hane : as ≠ [] := by
    intro e
    have := hwf.arena_chain
    rw [e] at this
    exact this
  have hbne : bs ≠ [] := by rw [hbs]; exact List.cons_ne_nil _ _
  have hsp := mmalloc_splice hwf h0 hov hnofit hgrant hfresh hfa hfb hane hbne
  subst hbs
  obtain ⟨x, xs, has⟩ := List.exists_cons_of_ne_nil hane
  subst has
  obtain ⟨hanull, hlen0, hinsp, hdisj⟩ := hfresh
  have hb := allign_page_bounds (n := size + 40) (by omega) hov hlen0
  generalize hlen : allign_page (size + 40) = len at *
  have ha_as : a ∉ x :: xs := by
    intro hmem
    obtain ⟨r, hr, hr1, hr2⟩ := hwf.arena_mapped a hmem
    rcases hdisj r hr with h | h <;> omega
  have hin_bs : ∀ k, 16 ≤ k → k + 24 ≤ len → a + k ∉ first_hdr s :: l := by
    intro k hk1 hk2 hmem
    obtain ⟨r, hr, hr1, hr2⟩ := hwf.hdr_mapped _ hmem
    unfold SZ_HEADER at hr2
    rcases hdisj r hr with h | h <;> omega
  have hh2_bs : a + 16 ∉ first_hdr s :: l := hin_bs 16 (by omega) (by unfold PAGE_SIZE at hb; omega)
  obtain ⟨hnnA, rl, hrl, hrlnext⟩ := arenaChain_parts s (x :: xs) hane hwf.arena_chain
  have hlastA_mem : (x :: xs).getLast hane ∈ x :: xs := List.getLast_mem _
  have hlastA_ne : (x :: xs).getLast hane ≠ a := fun e => ha_as (e ▸ hlastA_mem)
  have hlastmem : (first_hdr s :: l).getLast hbne ∈ first_hdr s :: l := List.getLast_mem _
  have hlast_ne : (first_hdr s :: l).getLast hbne ≠ a + 16 :=
    fun e => hh2_bs (e ▸ hlastmem)
  have hfeq : ∀ t : Heap, t.first_arena = s.first_arena → first_hdr t = first_hdr s := by
    intro t ht; unfold first_hdr; rw [ht]
  -- the heap before the second `first_fit`
  obtain ⟨t5, ht5⟩ : ∃ t, t = spliceHeap s a len ((x :: xs).getLast hane)
      ((first_hdr s :: l).getLast hbne) := ⟨_, rfl⟩
  rw [← ht5] at hsp
  have h5a : t5.first_arena = s.first_arena := by rw [ht5]; rfl
  have h5m : t5.mapped = (a, len) :: s.mapped := by rw [ht5]; rfl
  have h5ar : t5.arenas = upd (upd s.arenas a ⟨NULL, len⟩) ((x :: xs).getLast hane)
      ⟨a, rl.size⟩ := by rw [ht5]; unfold spliceHeap; rw [hrl]; rfl
  have h5h : t5.hdrs = upd (upd (upd s.hdrs (a + 16) ⟨NULL, len - 40, 0⟩)
      ((first_hdr s :: l).getLast hbne) ⟨a + 16, hl.size, hl.asize⟩) (a + 16)
      ⟨first_hdr s, len - 40, 0⟩ := by rw [ht5]; unfold spliceHeap; rw [hlast]; rfl
  have h5f : first_hdr t5 = first_hdr s := hfeq t5 h5a
  have h5new : t5.hdrs (a + 16) = some ⟨first_hdr s, len - 40, 0⟩ := by
    rw [h5h, upd_same]
  have h5last : t5.hdrs ((first_hdr s :: l).getLast hbne)
      = some ⟨a + 16, hl.size, hl.asize⟩ := by
    rw [h5h, upd_other _ _ hlast_ne, upd_same]
  have h5same : ∀ b ∈ first_hdr s :: l, b ≠ (first_hdr s :: l).getLast hbne →
      t5.hdrs b = s.hdrs b := by
    intro b hb hbl
    have hb2 : b ≠ a + 16 := fun e => hh2_bs (by rw [← e]; exact hb)
    rw [h5h, upd_other _ _ hb2, upd_other _ _ hbl, upd_other _ _ hb2]
  have h5keep : ∀ b ∈ first_hdr s :: l, ∀ h, s.hdrs b = some h →
      ∃ k, t5.hdrs b = some k ∧ k.size = h.size ∧ k.asize = h.asize := by
    intro b hb h hh
    by_cases hbl : b = (first_hdr s :: l).getLast hbne
    · subst hbl
      rw [hlast] at hh; cases hh
      exact ⟨_, h5last, rfl, rfl⟩
    · exact ⟨h, by rw [h5same b hb hbl]; exact hh, rfl, rfl⟩
  have ha16 : a + 16 ≠ NULL := by unfold NULL; omega
  have hw5 : Walk t5 (first_hdr s) (first_hdr s :: l ++ [a + 16]) := by
    apply walk_snoc s t5 (first_hdr s) (a + 16) ha16
      (fun e => hh2_bs (by rw [e]; simp)) ⟨_, h5new, rfl⟩ l _ hw hwf.ring.nodup
    · intro b hb hbl h hh
      exact ⟨h, by rw [h5same b hb hbl]; exact hh, rfl⟩
    · exact ⟨_, h5last, rfl⟩
  have hfit5 : Fits t5 size (a + 16) := by
    unfold Fits; rw [h5new]
    exact ⟨rfl, show size ≤ len - 40 by omega⟩
  have hnofit5 : ∀ b ∈ first_hdr s :: l, ¬ Fits t5 size b := by
    intro b hb hfit
    apply hnofit b hb
    obtain ⟨hb0, hhb0⟩ : ∃ h, s.hdrs b = some h := by
      by_cases hbl : b = (first_hdr s :: l).getLast hbne
      · exact ⟨hl, by rw [hbl]; exact hlast⟩
      · unfold Fits at hfit
        rw [h5same b hb hbl] at hfit
        cases hsb : s.hdrs b with
        | none => rw [hsb] at hfit; exact absurd hfit (by simp)
        | some h => exact ⟨h, rfl⟩
    obtain ⟨k, hk, hks, hka⟩ := h5keep b hb hb0 hhb0
    unfold Fits at hfit ⊢
    rw [hk] at hfit
    rw [hhb0]
    have hfit2 : k.asize = 0 ∧ size ≤ k.size := hfit
    rw [hks, hka] at hfit2
    exact hfit2
  have hff5 : first_fit fuel size t5 = .ok (a + 16) := by
    unfold first_fit
    rw [h5f, first_fit_loop_walk t5 size (first_hdr s) (l ++ [a + 16]) (first_hdr s) fuel
      hw5 (by simp only [List.length_cons, List.length_append, List.length_nil] at hfb ⊢; omega)]
    exact congrArg _ (firstFitting_snoc t5 size (a + 16) hfit5 (first_hdr s :: l) hnofit5)
  have hchain5 : ∀ u : Heap, u.arenas = t5.arenas → ArenaChain u (x :: xs ++ [a]) := by
    intro u hu
    apply arenaChain_snoc s u a hanull ⟨⟨NULL, len⟩, by
      rw [hu, h5ar, upd_other _ _ (fun e => hlastA_ne e.symm), upd_same], rfl⟩ xs x
      hwf.arena_chain hwf.arena_nodup
    · intro y hy hyl
      rw [hu, h5ar, upd_other _ _ hyl,
        upd_other _ _ (fun e => ha_as (by rw [← e]; exact hy))]
    · exact ⟨_, by rw [hu, h5ar, upd_same], rfl⟩
  have h5arA : t5.arenas a = some ⟨NULL, len⟩ := by
    rw [h5ar, upd_other _ _ (fun e => hlastA_ne e.symm), upd_same]
  have hwadd : wadd (a + 16) SZ_HEADER = a + 40 := by
    unfold wadd SZ_HEADER; unfold WORD at *; unfold PAGE_SIZE at hb; omega
  have hnd5 : (first_hdr s :: l ++ [a + 16]).Nodup := by
    exact List.Nodup.append hwf.ring.nodup (List.nodup_singleton _)
      (by simpa using hh2_bs)
  rw [hsp, hff5, ok_bind]
  rcases hsplit with hA | hB
  · -- the block is handed out whole
    have hns : ¬ (wsub (len - 40) size ≥ wadd SZ_HEADER 4) := by
      unfold wsub wadd SZ_HEADER; unfold WORD at *; omega
    rw [mmalloc_finish_nosplit ha16 h5new rfl h0 hns, hwadd]
    obtain ⟨s1, hs1⟩ : ∃ u : Heap, u = ⟨t5.first_arena, t5.arenas,
        upd t5.hdrs (a + 16) ⟨first_hdr s, len - 40, size⟩, t5.mapped⟩ := ⟨_, rfl⟩
    rw [← hs1]
    have h1a : s1.first_arena = s.first_arena := by rw [hs1]; exact h5a
    have h1h : s1.hdrs = upd t5.hdrs (a + 16) ⟨first_hdr s, len - 40, size⟩ := by rw [hs1]
    have h1new : s1.hdrs (a + 16) = some ⟨first_hdr s, len - 40, size⟩ := by
      rw [h1h, upd_same]
    have h1same : ∀ b ∈ first_hdr s :: l, s1.hdrs b = t5.hdrs b := by
      intro b hb
      rw [h1h, upd_other _ _ (fun e => hh2_bs (by rw [← e]; exact hb))]
    refine ⟨s1, [], rfl, h1a, by rw [hs1]; exact h5m, by rw [hs1]; exact h5arA,
      hchain5 s1 (by rw [hs1]), Or.inl rfl, ?_, ⟨_, h1new, rfl, show size ≤ len - 40 by omega⟩, ?_⟩
    · show Ring s1 (first_hdr s :: (l ++ [a + 16]))
      apply @ring_of_walk_at s1 (first_hdr s) (l ++ [a + 16]) (hfeq s1 h1a) _ hnd5
      · rw [getLast_snoc]; exact ⟨_, h1new, rfl⟩
      · apply walk_congr t5 s1 _ _ _ hw5
        intro y hy h hh
        by_cases hy2 : y = a + 16
        · subst hy2
          rw [h5new] at hh; cases hh
          exact ⟨_, h1new, rfl⟩
        · exact ⟨h, by rw [h1h, upd_other _ _ hy2]; exact hh, rfl⟩
    · intro b hb h hh
      obtain ⟨k, hk, hks⟩ := h5keep b hb h hh
      exact ⟨k, by rw [h1same b hb]; exact hk, hks⟩
  · -- the block is split
    have hs : wsub (len - 40) size ≥ wadd SZ_HEADER 4 := by
      unfold wsub wadd SZ_HEADER; unfold WORD at *; omega
    have hpre : wadd size (wmul 2 SZ_HEADER) ≤ len - 40 := by
      unfold wadd wmul SZ_HEADER; unfold WORD at *; omega
    have hp : wadd (wadd (a + 16) SZ_HEADER) size = a + 40 + size := by
      unfold wadd SZ_HEADER; unfold WORD at *; omega
    have hrem : wsub (wsub (len - 40) size) SZ_HEADER = len - 40 - size - 24 := by
      unfold wsub SZ_HEADER; unfold WORD at *; omega
    have hfnull : first_hdr s ≠ NULL := walk_head_ne_null hw
    have hpn : a + 40 + size ≠ NULL := by unfold NULL; omega
    have hp16 : a + 40 + size ≠ a + 16 := by omega
    have hp_bs : a + 40 + size ∉ first_hdr s :: l := by
      have := hin_bs (40 + size) (by omega) (by omega)
      rwa [← Nat.add_assoc] at this
    rw [mmalloc_finish_split ha16 h5new rfl h0 hs hpre (by rw [hp]; exact hpn)
      (by rw [hp]; exact hp16)]
    dsimp only
    rw [hp, hwadd, hrem, if_pos hfnull]
    obtain ⟨s1, hs1⟩ : ∃ u : Heap, u = ⟨t5.first_arena, t5.arenas,
        upd (upd t5.hdrs (a + 40 + size) ⟨first_hdr s, len - 40 - size - 24, 0⟩) (a + 16)
          ⟨a + 40 + size, size, size⟩, t5.mapped⟩ := ⟨_, rfl⟩
    rw [← hs1]
    have h1a : s1.first_arena = s.first_arena := by rw [hs1]; exact h5a
    have h1h : s1.hdrs = upd (upd t5.hdrs (a + 40 + size)
        ⟨first_hdr s, len - 40 - size - 24, 0⟩) (a + 16) ⟨a + 40 + size, size, size⟩ := by
      rw [hs1]
    have h1new : s1.hdrs (a + 16) = some ⟨a + 40 + size, size, size⟩ := by
      rw [h1h, upd_same]
    have h1p : s1.hdrs (a + 40 + size) = some ⟨first_hdr s, len - 40 - size - 24, 0⟩ := by
      rw [h1h, upd_other _ _ hp16, upd_same]
    have h1same : ∀ b ∈ first_hdr s :: l, s1.hdrs b = t5.hdrs b := by
      intro b hb
      rw [h1h, upd_other _ _ (fun e => hh2_bs (by rw [← e]; exact hb)),
        upd_other _ _ (fun e => hp_bs (by rw [← e]; exact hb))]
    refine ⟨s1, [a + 40 + size], rfl, h1a, by rw [hs1]; exact h5m, by rw [hs1]; exact h5arA,
      hchain5 s1 (by rw [hs1]), Or.inr rfl, ?_, ⟨_, h1new, rfl, Nat.le_refl _⟩, ?_⟩
    · have hnd6 : (first_hdr s :: (l ++ [a + 16]) ++ [a + 40 + size]).Nodup := by
        apply List.Nodup.append hnd5 (List.nodup_singleton _)
        intro y hy1 hy2
        simp only [List.mem_singleton] at hy2
        subst hy2
        rcases List.mem_append.1 hy1 with h1 | h1
        · exact hp_bs h1
        · simp only [List.mem_singleton] at h1
          exact hp16 h1
      have hw6 : Walk s1 (first_hdr s) (first_hdr s :: (l ++ [a + 16]) ++ [a + 40 + size]) := by
        apply walk_snoc t5 s1 (first_hdr s) (a + 40 + size) hpn
          (fun e => hp_bs (by rw [e]; simp)) ⟨_, h1p, rfl⟩ (l ++ [a + 16]) _ hw5 hnd5
        · intro y hy hyl h hh
          rw [getLast_snoc] at hyl
          have hy1 : y ∈ first_hdr s :: l := by
            have : y ∈ (first_hdr s :: l) ++ [a + 16] := hy
            rcases List.mem_append.1 this with h1 | h1
            · exact h1
            · simp only [List.mem_singleton] at h1
              exact absurd h1 hyl
          exact ⟨h, by rw [h1same y hy1]; exact hh, rfl⟩
        · rw [getLast_snoc]; exact ⟨_, h1new, rfl⟩
      have hlist : (first_hdr s :: l) ++ (a + 16) :: [a + 40 + size]
          = first_hdr s :: ((l ++ [a + 16]) ++ [a + 40 + size]) := by simp
      rw [hlist]
      apply @ring_of_walk_at s1 (first_hdr s) ((l ++ [a + 16]) ++ [a + 40 + size])
        (hfeq s1 h1a) hw6 hnd6
      rw [getLast_snoc]; exact ⟨_, h1p, rfl⟩
    · intro b hb h hh
      obtain ⟨k, hk, hks⟩ := h5keep b hb h hh
      exact ⟨k, by rw [h1same b hb]; exact hk, hks⟩

theorem soleHeap_ring : Ring soleHeap [262160] where
  head := rfl
  nodup := by decide
  nonnull := by decide
  link := List.chain'_singleton _
  close := ⟨262160, ⟨NULL, 131032, 131032⟩, rfl, rfl, Or.inr ⟨rfl, rfl⟩⟩

theorem soleHeap_wf : WellFormed soleHeap [262144] [262160] where
  arena_head := rfl
  arena_chain := ⟨by decide, ⟨NULL, 131072⟩, rfl, rfl⟩
  arena_nodup := by decide
  arena_mapped := by
    intro x hx
    simp only [List.mem_singleton] at hx
    subst hx
    exact ⟨(262144, 131072), by decide, rfl, by decide⟩
  ring := soleHeap_ring
  lone_null := by
    intro h hh
    have e : soleHeap.hdrs (first_hdr soleHeap) = some ⟨NULL, 131032, 131032⟩ := rfl
    rw [e] at hh
    cases hh
    decide
  hdr_mapped := by
    intro b hb
    simp only [List.mem_singleton] at hb
    subst hb
    exact ⟨(262144, 131072), by decide, by decide, by decide⟩

/-- The growth theorem applied to `soleHeap`: `mmalloc(100)` with the second
arena granted at 131072. -/
theorem mmalloc_grows_ring_witness :
    ∃ s1 rest, mmalloc 2 (grantAt soleHeap 131072) 100 soleHeap = .ok (131072 + 40, s1) ∧
      s1.first_arena = soleHeap.first_arena ∧
      s1.mapped = (131072, allign_page (100 + 40)) :: soleHeap.mapped ∧
      s1.arenas 131072 = some ⟨NULL, allign_page (100 + 40)⟩ ∧
      ArenaChain s1 ([262144] ++ [131072]) ∧
      (rest = [] ∨ rest = [131072 + 40 + 100]) ∧
      Ring s1 ([262160] ++ (131072 + 16) :: rest) ∧
      (∃ h, s1.hdrs (131072 + 16) = some h ∧ h.asize = 100 ∧ 100 ≤ h.size) ∧
      (∀ b ∈ [262160], ∀ h, soleHeap.hdrs b = some h →
        ∃ k, s1.hdrs b = some k ∧ k.size = h.size ∧ k.asize = h.asize) :=
  mmalloc_grows_ring soleHeap_wf (by decide) (by decide) (by decide) rfl (by decide)
    (by decide) (by decide) (by decide)

/-- The denied-request theorem applied at program start to the largest size
it covers. -/
theorem mmalloc_denied_returns_null_witness :
    mmalloc 0 denyAll (WORD - 41) Heap.empty = .ok (NULL, Heap.empty) :=
  mmalloc_denied_returns_null 0 (WORD - 41) Heap.empty rfl (by decide) (by decide)

theorem sibHeap1_reachable : Reachable sibHeap1 [262184] :=
  Reachable.malloc 4 (grantAt Heap.empty 262144) 100 262184 sibHeap1
    Reachable.start (by decide) (grantAt_fresh _ _) rfl

theorem triC_reachable : Reachable triC [262432, 262308, 262184] := by
  have hB : Reachable triB [262308, 262184] :=
    Reachable.malloc 4 denyAll 100 262308 triB sibHeap1_reachable (by decide)
      (denyAll_fresh _) rfl
  exact Reachable.malloc 4 denyAll 130784 262432 triC hB (by decide)
    (denyAll_fresh _) rfl

theorem triE_reachable : Reachable triE [262308] := by
  have hD : Reachable triD [262432, 262308] :=
    Reachable.free 4 262184 triD triC_reachable (by decide) rfl
  exact Reachable.free 4 262432 triE hD (by decide) rfl

theorem triF_reachable : Reachable triF [262308] := by
  have hD : Reachable triD2 [262308, 262184] :=
    Reachable.free 4 262432 triD2 triC_reachable (by decide) rfl
  exact Reachable.free 4 262184 triF hD (by decide) rfl

theorem sibFreed_reachable : Reachable sibFreed [] := by
  have hL : Reachable sibFreedL [262308] :=
    Reachable.free 4 262184 sibFreedL sibHeap_reachable (by decide) rfl
  exact Reachable.free 4 262308 sibFreed hL (by decide) rfl

/-- In `triE` the walk of `first_fit` looking for 200000 bytes cycles between
the blocks 262284 and 262408 for ever. -/
theorem triE_first_fit_cycles :
    ∀ fuel, first_fit_loop triE 200000 262160 fuel 262284 = .error .out_of_fuel ∧
      first_fit_loop triE 200000 262160 fuel 262408 = .error .out_of_fuel := by
  intro fuel
  induction fuel with
  | zero => exact ⟨rfl, rfl⟩
  | succ n ih =>
    have e1 : first_fit_loop triE 200000 262160 (n + 1) 262284
        = first_fit_loop triE 200000 262160 n 262408 := rfl
    have e2 : first_fit_loop triE 200000 262160 (n + 1) 262408
        = first_fit_loop triE 200000 262160 n 262284 := rfl
    rw [e1, e2]
    exact ⟨ih.2, ih.1⟩

/-- In `triE` the walk of `hdr_get_prev` for the anchor cycles between the
blocks 262284 and 262408 for ever. -/
theorem triE_get_prev_cycles :
    ∀ fuel, get_prev_loop triE 262160 fuel 262284 = .error .out_of_fuel ∧
      get_prev_loop triE 262160 fuel 262408 = .error .out_of_fuel := by
  intro fuel
  induction fuel with
  | zero => exact ⟨rfl, rfl⟩
  | succ n ih =>
    have e1 : get_prev_loop triE 262160 (n + 1) 262284
        = get_prev_loop triE 262160 n 262408 := rfl
    have e2 : get_prev_loop triE 262160 (n + 1) 262408
        = get_prev_loop triE 262160 n 262284 := rfl
    rw [e1, e2]
    exact ⟨ih.2, ih.1⟩

theorem triE_first_fit_diverges (fuel : Nat) :
    first_fit fuel 200000 triE = .error .out_of_fuel := by
  cases fuel with
  | zero => rfl
  | succ n =>
    have e : first_fit (n + 1) 200000 triE
        = first_fit_loop triE 200000 262160 n 262284 := rfl
    rw [e]
    exact (triE_first_fit_cycles n).1

theorem triE_get_prev_diverges (fuel : Nat) :
    hdr_get_prev fuel 262160 triE = .error .out_of_fuel := by
  cases fuel with
  | zero => rfl
  | succ n =>
    have e : hdr_get_prev (n + 1) 262160 triE
        = get_prev_loop triE 262160 n 262284 := rfl
    rw [e]
    exact (triE_get_prev_cycles n).1

theorem sibFreed_ring : Ring sibFreed [262160] where
  head := rfl
  nodup := by decide
  nonnull := by decide
  link := List.chain'_singleton _
  close := ⟨262160, ⟨NULL, 131156, 0⟩, rfl, rfl, Or.inr ⟨rfl, rfl⟩⟩

/-- For sizes that `mmalloc` can round without overflow, the byte count it
passes to `arena_alloc` meets the asserted precondition, the rounded arena
size covers it, and the first block has capacity at least `size` (the part
of C19 that the code honours). -/
theorem arena_request_ok (size : Nat) (h0 : 0 < size)
    (h1 : size + 40 ≤ WORD - PAGE_SIZE) :
    wadd (wadd size SZ_ARENA) SZ_HEADER = size + 40 ∧
    wadd (wadd size SZ_ARENA) SZ_HEADER > wadd SZ_ARENA SZ_HEADER ∧
    size + 40 ≤ allign_page (wadd (wadd size SZ_ARENA) SZ_HEADER) ∧
    size ≤ wsub (wsub (allign_page (wadd (wadd size SZ_ARENA) SZ_HEADER)) SZ_ARENA)
      SZ_HEADER := by
  unfold allign_page wmul wadd wsub WORD PAGE_SIZE SZ_ARENA SZ_HEADER at *
  omega

/-- The arena-request theorem applied to a request of 100 bytes. -/
theorem arena_request_ok_witness :
    wadd (wadd 100 SZ_ARENA) SZ_HEADER = 100 + 40 ∧
    wadd (wadd 100 SZ_ARENA) SZ_HEADER > wadd SZ_ARENA SZ_HEADER ∧
    100 + 40 ≤ allign_page (wadd (wadd 100 SZ_ARENA) SZ_HEADER) ∧
    100 ≤ wsub (wsub (allign_page (wadd (wadd 100 SZ_ARENA) SZ_HEADER)) SZ_ARENA)
      SZ_HEADER :=
  arena_request_ok 100 (by decide) (by decide)

/-- Specification of `hdr_should_split` for requests that fit the block (the
part of C15 that the code honours): the answer is `capacity - size >= 28`. -/
theorem hdr_should_split_fitting {s : Heap} {hdr size : Nat} {h : Header}
    (hp : hdr ≠ NULL) (hh : s.hdrs hdr = some h) (hfree : h.asize = 0)
    (h0 : 0 < size) (hle : size ≤ h.size) (hc : h.size < WORD) :
    hdr_should_split hdr size s = .ok (decide (h.size - size ≥ SZ_HEADER + 4)) := by
  unfold hdr_should_split
  rw [rdHdr_ok hp hh, ok_bind, if_neg (by simp [hfree]), if_neg (by omega)]
  have e : wsub h.size size = h.size - size := by
    unfold wsub; unfold WORD at *; omega
  have e2 : wadd SZ_HEADER 4 = SZ_HEADER + 4 := by decide
  rw [e, e2]
  rfl

/-- The fitting-request theorem at the threshold: a leftover of 28 bytes is
split, a leftover of 27 bytes is not. -/
theorem hdr_should_split_fitting_witness :
    hdr_should_split 4220 (200 - 28) ring3 = .ok (decide (200 - (200 - 28) ≥ SZ_HEADER + 4)) ∧
    hdr_should_split 4220 (200 - 27) ring3 = .ok (decide (200 - (200 - 27) ≥ SZ_HEADER + 4)) :=
  ⟨hdr_should_split_fitting (h := ⟨4112, 200, 0⟩) (by decide) rfl rfl (by decide) (by decide)
      (by decide),
    hdr_should_split_fitting (h := ⟨4112, 200, 0⟩) (by decide) rfl rfl (by decide) (by decide)
      (by decide)⟩

/-- Specification of `hdr_can_merge`: under its asserted precondition the
answer depends on the two `asize` fields only. -/
theorem hdr_can_merge_spec {s : Heap} {left right : Nat} {l r : Header}
    (hl0 : left ≠ NULL) (hr0 : right ≠ NULL)
    (hl : s.hdrs left = some l) (hr : s.hdrs right = some r)
    (hnext : l.next = right) (hne : left ≠ right) :
    hdr_can_merge left right s = .ok (decide (l.asize = 0 ∧ r.asize = 0)) := by
  unfold hdr_can_merge
  rw [rdHdr_ok hl0 hl, ok_bind, if_neg (by simp [hnext]), if_neg (by simp [hne])]
  by_cases ha : l.asize = 0
  · rw [if_neg (by simp [ha]), rdHdr_ok hr0 hr, ok_bind]
    simp [ha, pure, Except.pure]
  · rw [if_pos ha]
    simp [ha, pure, Except.pure]

theorem grantAtMem_fresh (s : Mem) (a : Nat) :
    ∀ len b, grantAtMem s a len = some b → FreshMem s b len := by
  intro len b h
  unfold grantAtMem at h
  split at h
  · cases h; assumption
  · cases h

theorem denyAll_freshMem (s : Mem) :
    ∀ len b, denyAll len = some b → FreshMem s b len := by
  intro len b h; cases h

theorem mOvF_reachable : ReachableMem mOvF [262184, 131112] := by
  have hA : ReachableMem mSole [262184] :=
    ReachableMem.malloc 1 (grantAtMem Mem.blank 262144) 131032 262184 mSole
      ReachableMem.start (by decide) (grantAtMem_fresh _ _) rfl
  have hB : ReachableMem mOvB [131112, 262184] :=
    ReachableMem.malloc 4 (grantAtMem mSole 131072) 100 131112 mOvB
      hA (by decide) (grantAtMem_fresh _ _) rfl
  have hC : ReachableMem mOvC [131236, 131112, 262184] :=
    ReachableMem.malloc 4 denyAll 130908 131236 mOvC hB (by decide)
      (denyAll_freshMem _) rfl
  have hD : ReachableMem mOvD [131236, 131112] :=
    ReachableMem.free 4 262184 mOvD hC (by decide) rfl
  have hE : ReachableMem mOvE [131112] :=
    ReachableMem.free 4 131236 mOvE hD (by decide) rfl
  exact ReachableMem.malloc 4 denyAll 131032 262184 mOvF hE (by decide)
    (denyAll_freshMem _) rfl

theorem mSplit_reachable : ReachableMem mSplit [131236, 262184, 131112] :=
  ReachableMem.malloc 4 denyAll 130916 131236 mSplit mOvF_reachable (by decide)
    (denyAll_freshMem _) rfl

theorem mMerged_reachable : ReachableMem mMerged [131236, 262184] :=
  ReachableMem.free 4 131112 mMerged mSplit_reachable (by decide) rfl

/-- On the runs behind the typed test heaps no store lands on another
record: the flat memory holds, at every block and arena of those heaps, the
record the typed view holds, and the aborting calls abort alike. -/
theorem typed_view_agrees_on_runs :
    [262160].map soleHeap.hdrs = [262160].map (fun p => some (hdrAt mSole p)) ∧
    [262160, 262284].map sibHeap1.hdrs
      = [262160, 262284].map (fun p => some (hdrAt mSib1 p)) ∧
    [262160, 262284].map sibHeap.hdrs
      = [262160, 262284].map (fun p => some (hdrAt mSib p)) ∧
    [262160].map sibFreed.hdrs = [262160].map (fun p => some (hdrAt mSibFreed p)) ∧
    [262160].map (heapOfFree (mfree 4 262308 sibHeap >>= mfree 4 262184)).hdrs
      = [262160].map (fun p => some (hdrAt mSibFreedRL p)) ∧
    [262160, 262284, 262408].map triE.hdrs
      = [262160, 262284, 262408].map (fun p => some (hdrAt mTriE p)) ∧
    [262160, 262284, 262408].map triF.hdrs
      = [262160, 262284, 262408].map (fun p => some (hdrAt mTriF p)) ∧
    [262160, 131088, 131212].map ovF.hdrs
      = [262160, 131088, 131212].map (fun p => some (hdrAt mOvF p)) ∧
    [262160, 131088, 131212].map ovG.hdrs
      = [262160, 131088, 131212].map (fun p => some (hdrAt mOvG p)) ∧
    [262144, 131072].map ovG.arenas
      = [262144, 131072].map (fun a => some (arenaAt mOvG a)) ∧
    (ovG.first_arena = mOvG.first_arena ∧ ovG.mapped = mOvG.mapped) ∧
    mmalloc_mem 1 (grantAtMem Mem.blank 262144) 131002 Mem.blank
      = .error .assert_fail ∧
    mfree_mem 1 262184 mSole = .error .null_deref ∧
    mmalloc_mem 2 (grantAtMem mSole 131072) 131002 mSole = .error .assert_fail ∧
    mmalloc_mem 2 denyAll 130878 mSib1 = .error .assert_fail :=
  ⟨rfl, rfl, rfl, rfl, rfl, rfl, rfl, rfl, rfl, rfl, ⟨rfl, rfl⟩, rfl, rfl, rfl, rfl⟩

/-- A block that `first_fit` returns is free and large enough for the
request, whatever the heap looks like: the loop is left through its
condition only. -/
theorem first_fit_loop_result_fits (s : Heap) (size first : Nat) :
    ∀ fuel hdr r, first_fit_loop s size first fuel hdr = .ok r → r ≠ NULL →
      Fits s size r := by
  intro fuel
  induction fuel with
  | zero => intro hdr r h; cases h
  | succ k ih =>
    intro hdr r h hr
    unfold first_fit_loop at h
    by_cases hp : hdr = NULL
    · unfold rdHdr at h
      rw [if_pos hp] at h
      cases h
    · cases hh : s.hdrs hdr with
      | none =>
        unfold rdHdr at h
        rw [if_neg hp, hh] at h
        cases h
      | some hd =>
        rw [rdHdr_ok hp hh, ok_bind] at h
        dsimp only at h
        split at h
        · split at h
          · cases h; exact absurd rfl hr
          · exact ih _ _ h hr
        · cases h
          rw [fits_iff hh]
          omega

/-! ## Claims -/

/-- C1 (fails on the code): at program start, with the operating system
granting the mapping, `mmalloc(131002)` does not return: the new block has
capacity 131032, the leftover of 30 bytes passes `hdr_should_split` and
fails the assertion of `hdr_split`.  Likewise `mmalloc(SIZE_MAX)` does not
return, whatever the operating system answers: the byte count
`size + sizeof(Arena) + sizeof(Header)` wraps to 39 and the assertion of
`arena_alloc` fails. -/
theorem mmalloc_aborts_on_granted_request :
    (∀ fuel, mmalloc (fuel + 1) (grantAt Heap.empty 262144) 131002 Heap.empty
      = .error .assert_fail) ∧
    grantAt Heap.empty 262144 (allign_page (131002 + SZ_ARENA + SZ_HEADER))
      = some 262144 ∧
    (∀ fuel mmap, mmalloc fuel mmap (WORD - 1) Heap.empty
      = .error .assert_fail) :=
  ⟨fun _ => rfl, rfl, fun _ _ => rfl⟩

/-- C2 (fails on the code): after `mmalloc(131032)` at program start the
heap holds one block, allocated whole, with `next == NULL`; `mfree` of the
returned pointer dereferences that `NULL` inside `hdr_can_merge`. -/
theorem mfree_sole_block_null_deref :
    Reachable soleHeap [262184] ∧
    soleHeap.hdrs (262184 - SZ_HEADER) = some ⟨NULL, 131032, 131032⟩ ∧
    ∀ fuel, mfree fuel 262184 soleHeap = .error .null_deref :=
  ⟨soleHeap_reachable, rfl, fun _ => rfl⟩

/-- C3 (fails on the code): a reachable state with two live allocations whose
byte ranges overlap.  The second arena lies directly below the first; the
last block of the ring (header 131212) has absorbed the first block of the
ring (header 262160), which is still the anchor and is allocated again. -/
theorem live_ranges_overlap :
    Reachable ovG [131236, 262184, 131112] ∧
    ovG.mapped = [(131072, 131072), (262144, 131072)] ∧
    ovG.hdrs (262184 - SZ_HEADER) = some ⟨131088, 131032, 131032⟩ ∧
    ovG.hdrs (131236 - SZ_HEADER) = some ⟨131088, 261964, 261964⟩ ∧
    ¬ LiveDisjoint ovG [131236, 262184, 131112] := by
  refine ⟨ovG_reachable, rfl, rfl, rfl, ?_⟩
  intro h
  have h1 := h 131236 (by decide) 262184 (by decide) (by decide)
    ⟨131088, 261964, 261964⟩ ⟨131088, 131032, 131032⟩ rfl rfl
    (by decide) (by decide)
  revert h1
  decide

/-- C4 (fails on the code): for the two siblings `L` (header 262160, capacity
100) and `R` (header 262284, capacity 130908) that make up the whole ring,
freeing `L` and then `R` leaves a block of capacity 131156, not
`100 + 130908 + sizeof(Header) = 131032`; freeing `R` and then `L` leaves
capacity 131032. -/
theorem free_siblings_left_first_wrong_capacity :
    Reachable sibHeap [262308, 262184] ∧
    sibHeap.hdrs 262160 = some ⟨262284, 100, 100⟩ ∧
    sibHeap.hdrs 262284 = some ⟨262160, 130908, 130908⟩ ∧
    (heapOfFree (mfree 4 262184 sibHeap >>= mfree 4 262308)).hdrs 262160
      = some ⟨NULL, 131156, 0⟩ ∧
    (heapOfFree (mfree 4 262308 sibHeap >>= mfree 4 262184)).hdrs 262160
      = some ⟨NULL, 131032, 0⟩ ∧
    131156 ≠ 100 + 130908 + SZ_HEADER :=
  ⟨sibHeap_reachable, rfl, rfl, rfl, rfl, by decide⟩

/-- C5 (fails on the code): `mrealloc` returns `NULL` for every pointer and
every size, also for sizes greater than zero, and leaves the heap as it is. -/
theorem mrealloc_always_null (ptr size : Nat) (s : Heap) :
    mrealloc ptr size s = (NULL, s) := by
  unfold mrealloc; split <;> rfl

/-- C6 (fails on the code): in the reachable heap `soleHeap` (one arena, a
well-formed one-block ring, no free block) `mmalloc(131002)`, with the
second arena granted at 131072, does not return: the new block of capacity
131032 is spliced into the ring, its leftover of 30 bytes passes
`hdr_should_split` and fails the assertion of `hdr_split`.  Likewise
`mmalloc(SIZE_MAX)` finds no block and aborts on the assertion of
`arena_alloc`, whatever the operating system would answer. -/
theorem mmalloc_growth_aborts :
    Reachable soleHeap [262184] ∧ soleHeap.first_arena = 262144 ∧
    Ring soleHeap [262160] ∧
    (∀ b ∈ [262160], ¬ Fits soleHeap 131002 b) ∧
    grantAt soleHeap 131072 (allign_page (131002 + SZ_ARENA + SZ_HEADER))
      = some 131072 ∧
    (∀ fuel, mmalloc (fuel + 2) (grantAt soleHeap 131072) 131002 soleHeap
      = .error .assert_fail) ∧
    (∀ b ∈ [262160], ¬ Fits soleHeap (WORD - 1) b) ∧
    (∀ fuel mmap, mmalloc (fuel + 1) mmap (WORD - 1) soleHeap
      = .error .assert_fail) :=
  ⟨soleHeap_reachable, rfl, soleHeap_ring, by decide, rfl, fun _ => rfl,
    by decide, fun _ _ => rfl⟩

/-- C7 (fails on the code): with an operating system that denies every
mapping and no arena yet, `mmalloc(size)` hits the assertion of
`arena_alloc` for each of the 40 sizes `SIZE_MAX - 39 .. SIZE_MAX`. -/
theorem mmalloc_denied_huge_aborts (fuel : Nat) (k : Fin 40) :
    mmalloc fuel denyAll (WORD - 40 + k) Heap.empty = .error .assert_fail := by
  have hk := k.isLt
  have h1 : (WORD - 40 + (k : Nat)) ≠ 0 := by unfold WORD; omega
  have h2 : ¬ (wadd (wadd (WORD - 40 + (k : Nat)) SZ_ARENA) SZ_HEADER
      > wadd SZ_ARENA SZ_HEADER) := by
    unfold wadd WORD SZ_ARENA SZ_HEADER; omega
  unfold mmalloc
  rw [if_neg h1, if_pos (by rfl)]
  unfold arena_alloc
  rw [if_pos h2]
  rfl

/-- C8: `mmalloc(0)` and `mrealloc(p, 0)` return `NULL` and leave the whole
allocator state exactly as it was, in every state. -/
theorem zero_size_is_noop (fuel : Nat) (mmap : Nat → Option Nat) (p : Nat)
    (s : Heap) :
    mmalloc fuel mmap 0 s = .ok (NULL, s) ∧ mrealloc p 0 s = (NULL, s) :=
  ⟨rfl, rfl⟩

/-- C9 (as stated, fails): in the ring of free blocks of capacities 50, 10,
200, `first_fit(30)` and `mmalloc(30)` select the 50-capacity anchor block
at 4112, not the 200-capacity block at 4220, which stays free. -/
theorem first_fit_50_10_200_not_200 :
    Ring ring3 [4112, 4186, 4220] ∧
    ring3.hdrs 4112 = some ⟨4186, 50, 0⟩ ∧ ring3.hdrs 4186 = some ⟨4220, 10, 0⟩ ∧
    ring3.hdrs 4220 = some ⟨4112, 200, 0⟩ ∧
    first_fit 3 30 ring3 = .ok 4112 ∧ first_fit 3 30 ring3 ≠ .ok 4220 ∧
    ptrOf (mmalloc 3 denyAll 30 ring3) = .ok (4112 + SZ_HEADER) ∧
    (heapOf (mmalloc 3 denyAll 30 ring3)).hdrs 4220 = some ⟨4112, 200, 0⟩ :=
  ⟨ring3_ring, rfl, rfl, rfl, rfl,
    fun h => absurd (Except.ok.inj h) (by decide), rfl, rfl⟩

/-- C9 (amended): in every ring whose blocks from the anchor on are free with
capacities 50, 10, 200, `first_fit(30)` returns the anchor, the 50-capacity
block, and `mmalloc(30)` returns its payload, marks it allocated with
`asize = 30` without splitting it, and changes no other block. -/
theorem first_fit_50_10_200 (s : Heap) (b1 b2 fuel : Nat) (mmap : Nat → Option Nat)
    (ha : s.first_arena ≠ NULL) (h0 : first_hdr s ≠ NULL)
    (hb0 : s.hdrs (first_hdr s) = some ⟨b1, 50, 0⟩)
    (_hb1 : s.hdrs b1 = some ⟨b2, 10, 0⟩)
    (_hb2 : s.hdrs b2 = some ⟨first_hdr s, 200, 0⟩) :
    first_fit (fuel + 1) 30 s = .ok (first_hdr s) ∧
    ∃ s1, mmalloc (fuel + 1) mmap 30 s = .ok (wadd (first_hdr s) SZ_HEADER, s1) ∧
      s1.hdrs (first_hdr s) = some ⟨b1, 50, 30⟩ ∧
      ∀ b, b ≠ first_hdr s → s1.hdrs b = s.hdrs b := by
  have hff : first_fit (fuel + 1) 30 s = .ok (first_hdr s) := by
    unfold first_fit first_fit_loop
    rw [rdHdr_ok h0 hb0]
    simp [bind, Except.bind, pure, Except.pure]
  refine ⟨hff, ?_⟩
  have hns : ¬ (wsub 50 30 ≥ wadd SZ_HEADER 4) := by decide
  have hfin : mmalloc_finish (first_hdr s) 30 s
      = .ok (wadd (first_hdr s) SZ_HEADER,
          ⟨s.first_arena, s.arenas, upd s.hdrs (first_hdr s) ⟨b1, 50, 30⟩, s.mapped⟩) := by
    unfold mmalloc_finish hdr_should_split
    rw [rdHdr_ok h0 hb0, ok_bind]
    simp only [not_true_eq_false, if_false]
    rw [if_neg (by decide), decide_eq_false hns]
    simp only [pure, Except.pure, ok_bind, Bool.false_eq_true, if_false]
    unfold setAsize wrHdr
    rw [if_neg h0, hb0]
    rfl
  rw [mmalloc_of_fit _ _ _ _ _ (by decide) ha hff h0, hfin]
  refine ⟨_, rfl, ?_, ?_⟩
  · simp [upd]
  · intro b hb
    simp [upd, hb]

/-- The amended C9 statement applied to the concrete ring `ring3`. -/
theorem first_fit_50_10_200_witness :
    ring3.first_arena ≠ NULL ∧ first_hdr ring3 ≠ NULL ∧
    ring3.hdrs (first_hdr ring3) = some ⟨4186, 50, 0⟩ ∧
    ring3.hdrs 4186 = some ⟨4220, 10, 0⟩ ∧
    ring3.hdrs 4220 = some ⟨first_hdr ring3, 200, 0⟩ ∧
    first_fit (2 + 1) 30 ring3 = .ok (first_hdr ring3) ∧
    ∃ s1, mmalloc (2 + 1) denyAll 30 ring3
        = .ok (wadd (first_hdr ring3) SZ_HEADER, s1) ∧
      s1.hdrs (first_hdr ring3) = some ⟨4186, 50, 30⟩ ∧
      ∀ b, b ≠ first_hdr ring3 → s1.hdrs b = ring3.hdrs b :=
  ⟨by decide, by decide, rfl, rfl, rfl,
    first_fit_50_10_200 ring3 4186 4220 2 denyAll (by decide) (by decide) rfl rfl rfl⟩

/-- C10: on a well-formed ring `first_fit(size)` terminates (any fuel of at
least the ring length suffices); a returned block is free, has capacity at
least `size`, and every block before it in traversal order does not fit; the
result is `NULL` exactly when no block of the ring fits. -/
theorem first_fit_correct (s : Heap) (bs : List Nat) (size : Nat)
    (hr : Ring s bs) (_hsize : 0 < size) :
    ∃ r, (∀ fuel, bs.length ≤ fuel → first_fit fuel size s = .ok r) ∧
      (r ≠ NULL → ∃ pre post, bs = pre ++ r :: post ∧ Fits s size r ∧
        ∀ b ∈ pre, ¬ Fits s size b) ∧
      (r = NULL ↔ ∀ b ∈ bs, ¬ Fits s size b) :=
  ⟨firstFitting s size bs, fun fuel hf => first_fit_ring hr size fuel hf,
    firstFitting_spec s size bs hr.nonnull⟩

/-- The C10 statement applied to `ring3` with a request of 60 bytes, which
only the third block can serve. -/
theorem first_fit_correct_witness :
    Ring ring3 [4112, 4186, 4220] ∧ 0 < 60 ∧
    ∃ r, (∀ fuel, [4112, 4186, 4220].length ≤ fuel → first_fit fuel 60 ring3 = .ok r) ∧
      (r ≠ NULL → ∃ pre post, [4112, 4186, 4220] = pre ++ r :: post ∧ Fits ring3 60 r ∧
        ∀ b ∈ pre, ¬ Fits ring3 60 b) ∧
      (r = NULL ↔ ∀ b ∈ [4112, 4186, 4220], ¬ Fits ring3 60 b) :=
  ⟨ring3_ring, by decide, first_fit_correct ring3 _ 60 ring3_ring (by decide)⟩

/-- C11 (fails on the code): in the reachable heap `triE` (one arena, three
blocks; the first and then the third were freed) the last block has absorbed
the anchor and links to the second block, so following `next` from the
anchor never returns to it: no list is a ring of `triE`, and the walks of
`first_fit(200000)` and of `hdr_get_prev(anchor)` run out of every fuel. -/
theorem ring_broken_after_wrap_merge :
    Reachable triE [262308] ∧ triE.first_arena = 262144 ∧
    first_hdr triE = 262160 ∧
    triE.hdrs 262160 = some ⟨262284, 100, 0⟩ ∧
    triE.hdrs 262284 = some ⟨262408, 100, 100⟩ ∧
    triE.hdrs 262408 = some ⟨262284, 130908, 0⟩ ∧
    (¬ ∃ bs, Ring triE bs) ∧
    (∀ fuel, first_fit fuel 200000 triE = .error .out_of_fuel) ∧
    (∀ fuel, hdr_get_prev fuel 262160 triE = .error .out_of_fuel) := by
  refine ⟨triE_reachable, rfl, rfl, rfl, rfl, rfl, ?_, triE_first_fit_diverges,
    triE_get_prev_diverges⟩
  rintro ⟨bs, hr⟩
  have h1 := first_fit_ring hr 200000 bs.length (Nat.le_refl _)
  rw [triE_first_fit_diverges] at h1
  cases h1

/-- C12 (fails on the code): after `mmalloc(100)`, `mmalloc(130908)`,
`mfree` of the first and `mfree` of the second pointer, the arena of 131072
bytes holds one block of capacity 131156: header plus capacity is 131180,
not `131072 - sizeof(Arena) = 131056`, and the block ends past the end of
the arena. -/
theorem block_exceeds_arena_after_frees :
    Reachable sibFreed [] ∧ Ring sibFreed [262160] ∧
    sibFreed.mapped = [(262144, 131072)] ∧
    sibFreed.arenas 262144 = some ⟨NULL, 131072⟩ ∧
    sibFreed.hdrs 262160 = some ⟨NULL, 131156, 0⟩ ∧
    payloadSum sibFreed [262160] = 131180 ∧
    payloadSum sibFreed [262160] ≠ 131072 - SZ_ARENA ∧
    ¬ BlocksWithinArenas sibFreed [262160] := by
  refine ⟨sibFreed_reachable, sibFreed_ring, rfl, rfl, rfl, rfl, by decide, ?_⟩
  intro h
  obtain ⟨r, hr, h1, h2⟩ := h 262160 (by decide) ⟨NULL, 131156, 0⟩ rfl
  have hm : sibFreed.mapped = [(262144, 131072)] := rfl
  rw [hm] at hr
  simp only [List.mem_singleton] at hr
  subst hr
  revert h2
  decide

/-- C13 (fails on the code): in the reachable heap `triF` the last block of
the ring (header 262408, free) is followed in list order by the first block
(header 262160, free), which does not start at the end of the last block;
`hdr_can_merge` returns true for that pair. -/
theorem can_merge_ignores_contiguity :
    Reachable triF [262308] ∧
    triF.hdrs 262408 = some ⟨262160, 130784, 0⟩ ∧
    triF.hdrs 262160 = some ⟨262284, 100, 0⟩ ∧
    262408 ≠ 262160 ∧
    262160 ≠ 262408 + SZ_HEADER + 130784 ∧
    hdr_can_merge 262408 262160 triF = .ok true :=
  ⟨triF_reachable, rfl, rfl, by decide, by decide, rfl⟩

/-- C14 (fails on the code): in the reachable heap `sibHeap1` the free block
at 262284 has capacity 130908; for a request of 130878 bytes `first_fit`
returns it, `hdr_should_split` returns true (leftover 30 >= 28), the
assertion of `hdr_split` (`130908 >= 130878 + 2 * sizeof(Header)`) fails,
and so `mmalloc(130878)` aborts. -/
theorem should_split_breaks_split_assert :
    Reachable sibHeap1 [262184] ∧
    sibHeap1.hdrs 262284 = some ⟨262160, 130908, 0⟩ ∧
    first_fit 2 130878 sibHeap1 = .ok 262284 ∧
    hdr_should_split 262284 130878 sibHeap1 = .ok true ∧
    ¬ (130908 ≥ 130878 + 2 * SZ_HEADER) ∧
    hdr_split 262284 130878 sibHeap1 = .error .assert_fail ∧
    (∀ fuel mmap, mmalloc (fuel + 2) mmap 130878 sibHeap1 = .error .assert_fail) :=
  ⟨sibHeap1_reachable, rfl, rfl, rfl, by decide, rfl, fun _ _ => rfl⟩

/-- C15 (as stated, fails): the claim includes requests larger than the
capacity.  For the free block of capacity 10 in `ring3` and a request of 20
bytes `hdr_should_split` returns true, because `10 - 20` wraps around in
`size_t`; as integers `10 - 20 >= 28` is false. -/
theorem should_split_wraps_on_short_block :
    ring3.hdrs 4186 = some ⟨4220, 10, 0⟩ ∧
    hdr_should_split 4186 20 ring3 = .ok true ∧
    ¬ ((10 : Int) - 20 ≥ (SZ_HEADER : Int) + 4) :=
  ⟨rfl, rfl, by decide⟩

/-- C15 (amended): for a free block of capacity `c` and a request `r > 0`
that fits it (`r <= c`, the only requests `mmalloc` passes, as the block
comes from `first_fit(r)`), `hdr_should_split` returns true exactly when
`c - r >= sizeof(Header) + 4` as integers: capacity `r + sizeof(Header) + 3`
is not split, capacity `r + sizeof(Header) + 4` is.  For `r > c` the
subtraction wraps around and the function returns true unless
`r - c > 2^64 - (sizeof(Header) + 4)`. -/
theorem hdr_should_split_leftover (s : Heap) (hdr n c r : Nat) (hp : hdr ≠ NULL)
    (hh : s.hdrs hdr = some ⟨n, c, 0⟩) (h0 : 0 < r) (hc : c < WORD) (hr : r < WORD) :
    (r ≤ c → hdr_should_split hdr r s
      = .ok (decide ((c : Int) - (r : Int) ≥ (SZ_HEADER : Int) + 4))) ∧
    (c = r + SZ_HEADER + 3 → hdr_should_split hdr r s = .ok false) ∧
    (c = r + SZ_HEADER + 4 → hdr_should_split hdr r s = .ok true) ∧
    (c < r → hdr_should_split hdr r s
      = .ok (decide (r - c ≤ WORD - (SZ_HEADER + 4)))) := by
  have key : hdr_should_split hdr r s
      = .ok (decide (wsub c r ≥ wadd SZ_HEADER 4)) := by
    unfold hdr_should_split
    rw [rdHdr_ok hp hh, ok_bind, if_neg (by simp), if_neg (by omega)]
    rfl
  have e2 : wadd SZ_HEADER 4 = 28 := by decide
  rw [key, e2]
  refine ⟨?_, ?_, ?_, ?_⟩
  · intro hle
    have e : wsub c r = c - r := by unfold wsub; unfold WORD at *; omega
    rw [e]
    congr 1
    apply decide_eq_decide.2
    unfold SZ_HEADER
    omega
  · intro hcr
    have e : wsub c r = 27 := by unfold wsub; unfold WORD SZ_HEADER at *; omega
    rw [e]
    rfl
  · intro hcr
    have e : wsub c r = 28 := by unfold wsub; unfold WORD SZ_HEADER at *; omega
    rw [e]
    rfl
  · intro hlt
    have e : wsub c r = c + WORD - r := by unfold wsub; unfold WORD at *; omega
    rw [e]
    congr 1
    apply decide_eq_decide.2
    unfold SZ_HEADER WORD at *
    omega

/-- The amended C15 statement applied to the block of capacity 200 of
`ring3` and a request of 172 bytes, which leaves exactly 28 bytes. -/
theorem hdr_should_split_leftover_witness :
    4220 ≠ NULL ∧ ring3.hdrs 4220 = some ⟨4112, 200, 0⟩ ∧ 0 < 172 ∧ 200 < WORD ∧
    172 < WORD ∧
    (172 ≤ 200 → hdr_should_split 4220 172 ring3
      = .ok (decide ((200 : Int) - (172 : Int) ≥ (SZ_HEADER : Int) + 4))) ∧
    (200 = 172 + SZ_HEADER + 3 → hdr_should_split 4220 172 ring3 = .ok false) ∧
    (200 = 172 + SZ_HEADER + 4 → hdr_should_split 4220 172 ring3 = .ok true) ∧
    (200 < 172 → hdr_should_split 4220 172 ring3
      = .ok (decide (172 - 200 ≤ WORD - (SZ_HEADER + 4)))) :=
  ⟨by decide, rfl, by decide, by decide, by decide,
    hdr_should_split_leftover ring3 4220 4112 200 172 (by decide) rfl (by decide)
      (by decide) (by decide)⟩

/-- C16 (fails on the code): in the reachable state `mOvF` the free block at
131212 has capacity 261964 and so reaches over the arena record at 262144
and the live anchor block at 262160 (the merge of C3).  `mmalloc(130916)`
finds that block and calls `hdr_split(131212, 130916)`, whose precondition
holds.  The new header lands at 262152; the two blocks of the split get the
fields the claim names, but the stores also change the arena record (`size`
131072 to 131088) and the anchor block (`next` 131088 to 131024, `size`
131032 to 0), and the anchor's `next` now points below both arenas. -/
theorem split_overwrites_anchor :
    ReachableMem mOvF [262184, 131112] ∧
    mOvF.mapped = [(131072, 131072), (262144, 131072)] ∧
    first_hdr_mem mOvF = 262160 ∧
    hdrAt mOvF 131212 = ⟨131088, 261964, 0⟩ ∧
    261964 ≥ 130916 + 2 * SZ_HEADER ∧
    first_fit_mem 4 130916 mOvF = .ok 131212 ∧
    hdr_should_split_mem 131212 130916 mOvF = .ok true ∧
    ptrOfMem (hdr_split_mem 131212 130916 mOvF) = .ok 262152 ∧
    hdrAt mCut 131212 = ⟨262152, 130916, 0⟩ ∧
    hdrAt mCut 262152 = ⟨131088, 131024, 0⟩ ∧
    hdrAt mOvF 262160 = ⟨131088, 131032, 131032⟩ ∧
    hdrAt mCut 262160 = ⟨131024, 0, 131032⟩ ∧
    arenaAt mOvF 262144 = ⟨131072, 131072⟩ ∧
    arenaAt mCut 262144 = ⟨131072, 131088⟩ ∧
    mCut.mapped = [(131072, 131072), (262144, 131072)] ∧
    (hdrAt mCut 262160).next + SZ_HEADER ≤ 131072 :=
  ⟨mOvF_reachable, rfl, rfl, rfl, by decide, rfl, rfl, rfl, rfl, rfl, rfl, rfl, rfl,
    rfl, rfl, by decide⟩

/-- C17 (fails on the code): in the reachable state `mSplit` the free block
at 262152 overlaps the live anchor block at 262160.  `mfree(131112)` finds
262152 as predecessor of the block at 131088, clears `asize` and calls
`hdr_merge(262152, 131088)` with `left.next == right` and `left != right`.
The left block gets the fields the claim names, but the same stores change
the anchor block (`next` 131024 to 131148) and the arena record (`size`
131088 to 131212), which are not the left block. -/
theorem merge_overwrites_anchor :
    ReachableMem mSplit [131236, 262184, 131112] ∧
    hdr_get_prev_mem 4 131088 mSplit = .ok 262152 ∧
    returned (store64 131088 16 0 mSplit) = true ∧
    hdrAt mFreed 262152 = ⟨131088, 131024, 0⟩ ∧
    hdrAt mFreed 131088 = ⟨131212, 100, 0⟩ ∧
    hdr_can_merge_mem 131088 131212 mFreed = .ok false ∧
    hdr_can_merge_mem 262152 131088 mFreed = .ok true ∧
    returned (hdr_merge_mem 262152 131088 mFreed) = true ∧
    hdrAt mJoined 262152 = ⟨131212, 131024 + 100 + SZ_HEADER, 0⟩ ∧
    hdrAt mFreed 262160 = ⟨131024, 0, 131032⟩ ∧
    hdrAt mJoined 262160 = ⟨131148, 0, 131032⟩ ∧
    arenaAt mFreed 262144 = ⟨131072, 131088⟩ ∧
    arenaAt mJoined 262144 = ⟨131072, 131212⟩ ∧
    ReachableMem mMerged [131236, 262184] ∧
    hdrAt mMerged 262160 = ⟨131148, 0, 131032⟩ ∧
    arenaAt mMerged 262144 = ⟨131072, 131212⟩ :=
  ⟨mSplit_reachable, rfl, rfl, rfl, rfl, rfl, rfl, rfl, rfl, rfl, rfl, rfl, rfl,
    mMerged_reachable, rfl, rfl⟩

/-- C18 (fails on the code): a reachable state in which the first block of
the ring has `asize > size`.  After the merge of C3 the block at 131212
reaches over the anchor block at 262160, which is allocated again
(`size = asize = 131032`); `mmalloc(130916)` then splits the block at 131212
and writes the new header at 262152, which stores 0 over the anchor's `size`
field and leaves its `asize` at 131032. -/
theorem asize_exceeds_size_after_split :
    ReachableMem mSplit [131236, 262184, 131112] ∧
    mSplit.mapped = [(131072, 131072), (262144, 131072)] ∧
    mSplit.first_arena = 262144 ∧ first_hdr_mem mSplit = 262160 ∧
    hdrAt mOvF 262160 = ⟨131088, 131032, 131032⟩ ∧
    ptrOfMem (mmalloc_mem 4 denyAll 130916 mOvF) = .ok 131236 ∧
    hdrAt mSplit 262160 = ⟨131024, 0, 131032⟩ ∧
    ¬ ((hdrAt mSplit 262160).asize ≤ (hdrAt mSplit 262160).size) :=
  ⟨mSplit_reachable, rfl, rfl, rfl, rfl, rfl, rfl, by decide⟩

/-- C19 (fails on the code): for `size = SIZE_MAX` the byte count
`size + sizeof(Arena) + sizeof(Header)` wraps to 39, which is not greater
than `sizeof(Arena) + sizeof(Header) = 40`, so `arena_alloc` fails its
assertion; the arena that 39 bytes round to (131072) has a first block of
capacity 131032, less than `size`.  For `size = SIZE_MAX - 40` the byte
count is `SIZE_MAX` and `allign_page` wraps to 0. -/
theorem arena_request_wraps :
    wadd (wadd (WORD - 1) SZ_ARENA) SZ_HEADER = 39 ∧
    ¬ (wadd (wadd (WORD - 1) SZ_ARENA) SZ_HEADER > wadd SZ_ARENA SZ_HEADER) ∧
    (∀ mmap s, arena_alloc mmap (wadd (wadd (WORD - 1) SZ_ARENA) SZ_HEADER) s
      = .error .assert_fail) ∧
    allign_page 39 = 131072 ∧
    wsub (wsub 131072 SZ_ARENA) SZ_HEADER < WORD - 1 ∧
    wadd (wadd (WORD - 41) SZ_ARENA) SZ_HEADER = WORD - 1 ∧
    allign_page (WORD - 1) = 0 :=
  ⟨by decide, by decide, fun _ _ => rfl, by decide, by decide, by decide, by decide⟩

end Mmal
